import Mathlib

/-!
Verification of the Informer event emitter of the protoblast repository
(src/lib/informer.js), via a shallow embedding of its data model and
operations.

Modelling conventions:
* JavaScript primitive and reference values are modelled by `JsVal`.
  Functions, Error instances and other objects are modelled by identity
  (a natural-number id); the coercing ToPrimitive conversions between
  objects and primitives are not modelled (no claim depends on them).
* A filter object is an association list of property name to value; the
  reserved property is the name "type".  Property lookup on a missing
  key yields `JsVal.undef`, as in JavaScript.
* Listener functions are modelled by `LFun`: either a user-supplied
  listener, whose body is a small script of the effects a listener can
  perform on its dispatch context and on the emitter (`Step`), or the
  counting wrapper `g` generated by `many` / `after`, whose `fired`
  counter lives in a store of counters on the emitter state (in the
  source it lives in the wrapper closure).  Distinct functions are
  modelled with distinct ids; function identity (JavaScript `==` between
  functions) is id equality.
* The task runner `Function.series` / `Function.parallel`
  (src/lib/function.js) is not part of the sources; it is modelled from
  the spec: it invokes the ordered task list one at a time, in order and
  immediately (synchronously), stops at and reports the first error, and
  `parallel` awaits all side tasks and reports the first error.
  A task is invoked as a plain call, so the receiver `this` inside the
  task `doListener` cannot be the per-listener dispatch context (which
  is a local of `eachListener` in informer.js); its properties
  `type` / `ListenerSaysStop` / `ListenerIsDone` are absent.  The
  receiver is modelled by `TaskThis`, all fields `undef`.
* `emit` may recurse through the `newListener` / `removeListener`
  meta-events; the interpreter carries a fuel parameter that only those
  nested emissions consume.
-/

/-- JavaScript values, with objects modelled by identity. -/
inductive JsVal where
  | undef : JsVal
  | nullV : JsVal
  | boolV : Bool → JsVal
  | num : Int → JsVal
  | str : String → JsVal
  | fnV : Nat → JsVal
  | errV : Nat → JsVal
  | objV : Nat → JsVal
  | typeErrV : String → JsVal
  | errPairV : JsVal → JsVal → JsVal
  deriving DecidableEq

/-- JavaScript truthiness. -/
def truthy : JsVal → Bool
  | .undef => false
  | .nullV => false
  | .boolV b => b
  | .num n => decide (n ≠ 0)
  | .str s => decide (s ≠ "")
  | _ => true

/-- The `instanceof Error` test (TypeError instances are Errors too). -/
def isErrorInst : JsVal → Bool
  | .errV _ => true
  | .typeErrV _ => true
  | _ => false

/-- Decimal string-to-number conversion used by loose equality
(whitespace-trimmed; empty string is 0; non-numeric strings are NaN,
modelled as `none`). -/
def toNum (s : String) : Option Int :=
  let t := s.trim
  if t = "" then some 0
  else
    let digits : List Char → Option Int := fun cs =>
      if cs ≠ [] ∧ cs.all Char.isDigit then
        some (cs.foldl (fun a c => a * 10 + (Int.ofNat (c.toNat - 48))) 0)
      else none
    match t.toList with
    | '-' :: rest => (digits rest).map (fun n => -n)
    | '+' :: rest => digits rest
    | cs => digits cs

/-- Numeric value of a boolean. -/
def boolNum (b : Bool) : Int := if b then 1 else 0

/-- JavaScript loose (coercing) equality `==` on the modelled values.
Reference values compare by identity; object-to-primitive coercion is
not modelled (such comparisons are false). -/
def looseEq : JsVal → JsVal → Bool
  | .undef, .undef => true
  | .undef, .nullV => true
  | .nullV, .undef => true
  | .nullV, .nullV => true
  | .num a, .num b => decide (a = b)
  | .str a, .str b => decide (a = b)
  | .boolV a, .boolV b => decide (a = b)
  | .num a, .str s => decide (toNum s = some a)
  | .str s, .num a => decide (toNum s = some a)
  | .boolV b, .num a => decide (boolNum b = a)
  | .num a, .boolV b => decide (a = boolNum b)
  | .boolV b, .str s => decide (toNum s = some (boolNum b))
  | .str s, .boolV b => decide (toNum s = some (boolNum b))
  | .fnV a, .fnV b => decide (a = b)
  | .errV a, .errV b => decide (a = b)
  | .objV a, .objV b => decide (a = b)
  | _, _ => false

/-- A filter object: property name to value. -/
def JFilter : Type := List (String × JsVal)

instance : DecidableEq JFilter := by
  unfold JFilter; infer_instance

/-- Property lookup on a filter object (`undefined` when absent). -/
def getv (f : JFilter) (k : String) : JsVal :=
  match f with
  | [] => .undef
  | (k', v) :: rest => if k' = k then v else getv rest k

/-- The key-subset match rule used identically by `hasBeenSeen`,
`queryListeners`, `removeListener` and `removeAllListeners`: every key
of the stored filter `a` must be loosely equal to the corresponding key
of the queried filter `b` (extra keys in `b` are ignored). -/
def keySubset (a b : JFilter) : Bool :=
  a.all (fun kv => looseEq kv.2 (getv b kv.1))

/-- An event type argument: a plain string or a filter object. -/
inductive EvType where
  | strT : String → EvType
  | filtT : JFilter → EvType
  deriving DecidableEq

/-- The type name carried by a filter object: its string-valued `type`
property, or the empty string. -/
def filtName (f : JFilter) : String :=
  match getv f "type" with
  | .str s => s
  | _ => ""

/-- Resolved type name of an event type argument. -/
def evName : EvType → String
  | .strT s => s
  | .filtT f => filtName f

/-- The JsVal passed for the type argument in `newListener` /
`removeListener` meta-emissions (a filter object is passed by identity,
modelled as an opaque object). -/
def evTypeVal : EvType → JsVal
  | .strT s => .str s
  | .filtT _ => .objV 0

/-- Effects a listener body may perform, other than registering a new
listener (the bodies of listeners registered from inside a dispatch are
flat scripts of these). -/
inductive Step0 where
  | setStopFlag : Step0
  | waitS : JsVal → Step0
  | callDone : JsVal → Step0
  | throwE : JsVal → Step0
  | removeL : EvType → Nat → Step0
  deriving DecidableEq

/-- One effect of a listener body: a basic effect, or registering a new
listener (with a fresh id and a flat body) via `this.addListener`. -/
inductive Step where
  | basic : Step0 → Step
  | addL : EvType → Nat → List Step0 → Step
  deriving DecidableEq

/-- Listener function values.
`user id body` is a user listener with identity `id` whose body performs
the given effects in order.
`wrap gid cref times ty inner` is the counting wrapper `g` generated by
`many` / `once` / `after` / `afterOnce`: identity `gid`, `fired` counter
stored at index `cref` of the emitter state's counter store, maximum
invocation count `times` (negative means unlimited), subscription type
`ty`, and the wrapped original listener `inner` (the `g.listener`
back-reference). -/
inductive LFun where
  | user : Nat → List Step → LFun
  | wrap : Nat → Nat → Int → EvType → LFun → LFun

/-- The identity of a function value. -/
def LFun.topId : LFun → Nat
  | .user id _ => id
  | .wrap gid _ _ _ _ => gid

/-- The `listener.listener ? listener.listener : listener` unwrapping
used when emitting `newListener`. -/
def LFun.unwrapB : LFun → LFun
  | .user id b => .user id b
  | .wrap _ _ _ _ inner => inner

/-- Does function `f` match removal target `tid`
(`listeners[i] == listenerToRemove || listeners[i].listener ==
listenerToRemove`, function equality being identity)? -/
def fnMatches (f : LFun) (tid : Nat) : Bool :=
  f.topId = tid ||
    (match f with
     | .user _ _ => false
     | .wrap _ _ _ _ inner => inner.topId = tid)

/-- All function ids a function value can ever put into play: its own
id, the ids along its wrapper chain, and the ids of listeners its body
may register. -/
def LFun.fnIds : LFun → List Nat
  | .user id body =>
      id :: body.foldr
        (fun st acc =>
          match st with
          | .basic _ => acc
          | .addL _ nid _ => nid :: acc) []
  | .wrap gid _ _ _ inner => gid :: inner.fnIds

/-- A record of one listener-function invocation: the function id, the
`past` flag of its dispatch context, and the positional arguments. -/
structure Invoc where
  fnId : Nat
  past : Bool
  args : List JsVal
  deriving DecidableEq

/-- The per-emitter state (the fields initialised by the Informer
constructor, plus the store backing the `fired` closure counters of the
generated wrappers). -/
structure InformerState where
  simpleListeners : List (String × List LFun)
  filterListeners : List (String × List (LFun × JFilter))
  listenTypes : List String
  simpleSeen : List String
  filterSeen : List JFilter
  counters : List Nat

/-- Key lookup in an object modelled as an association list. -/
def lookupL {α : Type} : List (String × α) → String → Option α
  | [], _ => none
  | (k', v) :: rest, k => if k' = k then some v else lookupL rest k

/-- Key update (the key is expected to be present; appends otherwise). -/
def setKey {α : Type} : List (String × α) → String → α → List (String × α)
  | [], k, v => [(k, v)]
  | (k', v') :: rest, k, v =>
      if k' = k then (k, v) :: rest else (k', v') :: setKey rest k v

/-- A freshly constructed Informer. -/
def emptyInformer : InformerState :=
  { simpleListeners := [], filterListeners := [], listenTypes := [],
    simpleSeen := [], filterSeen := [], counters := [] }

/-- Every listener function currently registered on the emitter. -/
def allFns (s : InformerState) : List LFun :=
  (s.simpleListeners.flatMap (fun p => p.2)) ++
    (s.filterListeners.flatMap (fun p => p.2.map (fun e => e.1)))

/-- Every function id the current registry can put into play. -/
def stateFnIds (s : InformerState) : List Nat :=
  (allFns s).flatMap LFun.fnIds

/-- No `newListener` subscription exists (in either map) and no simple
`removeListener` subscription exists: the meta-emission guards inside
`addListener` and `removeListener` are all disabled. -/
def metaFree (s : InformerState) : Bool :=
  (lookupL s.simpleListeners "newListener").isNone &&
  (lookupL s.filterListeners "newListener").isNone &&
  (lookupL s.simpleListeners "removeListener").isNone

/-- The result shape of `queryListeners`: the source returns an array
whose slots 0 and 1 are the resolved type name and the filter object
(metadata), followed by the matching listener entries.  The metadata
slots are the `typeName` and `filterV` fields; `entries` are the slots
from index 2 on (`length < 3` in the source is `entries = []` here).
A filtered entry keeps its filter; a simple entry is pushed as a
one-element array, i.e. with no filter. -/
structure QueryResult where
  typeName : String
  filterV : Option JFilter
  entries : List (LFun × Option JFilter)

/-- The observable outcome of one `emit` call.
`entryTrace` records, in order, the function id of every snapshot entry
the dispatch loop invoked; `trace` records every listener-function
invocation (including wrapped originals and nested meta-emissions);
`cbCalls` records invocations of this emission's own trailing callback;
`firstErr` is the error the main task list reported to `seriesDone`;
`thrown` is a synchronously propagated exception; `stalled` marks a
dispatch that suspended forever; `fuelOut` marks interpreter fuel
exhaustion (never reachable in the meta-emission-free fragment). -/
structure CbCall where
  cbId : Nat
  errArg : JsVal
  stoppedArg : Bool
  deriving DecidableEq

structure EmitOut where
  state : InformerState
  entryTrace : List Nat := []
  trace : List Invoc := []
  cbCalls : List CbCall := []
  isAsync : Bool := false
  stopped : Bool := false
  firstErr : Option JsVal := none
  thrown : Option JsVal := none
  stalled : Bool := false
  fuelOut : Bool := false

/-- The type of the (fuelled) emit function, abstracted so that the
registry operations can perform their nested meta-emissions. -/
def EmitF : Type := EvType → List JsVal → InformerState → EmitOut

/-- Outcome of a registry operation or listener-script step: the new
state, the listener invocations it caused (through meta-emissions), a
propagating exception, and fuel exhaustion. -/
structure StOut where
  s : InformerState
  trace : List Invoc := []
  thrown : Option JsVal := none
  fuelOut : Bool := false

/-- A no-effect outcome. -/
def noop (s : InformerState) : StOut := { s := s }

/-- Sequencing of effects: the continuation runs unless an exception is
propagating or fuel ran out. -/
def StOut.thenDo (r : StOut) (f : InformerState → StOut) : StOut :=
  if r.thrown.isSome || r.fuelOut then r
  else
    let r2 := f r.s
    { r2 with trace := r.trace ++ r2.trace }

/-- A nested `this.emit(...)` call from inside a registry operation. -/
def emitCall (emitF : EmitF) (ty : EvType) (args : List JsVal) (s : InformerState) : StOut :=
  let o := emitF ty args s
  { s := o.state, trace := o.trace, thrown := o.thrown, fuelOut := o.fuelOut }

/-- queryListeners (informer.js 503-590).  The `markAsSeen` parameter
is accepted but, exactly as in the source, never read. -/
def queryListeners (ty : EvType) (markAsSeen : Bool) (s : InformerState) :
    QueryResult × InformerState :=
  let _ := markAsSeen
  let typeName := evName ty
  let filt : Option JFilter :=
    match ty with
    | .strT _ => none
    | .filtT f => some f
  let s1 := { s with simpleSeen := typeName :: s.simpleSeen }
  let s2 :=
    match filt with
    | none => s1
    | some f => { s1 with filterSeen := s1.filterSeen ++ [f] }
  let fentries : List (LFun × Option JFilter) :=
    match filt with
    | none => []
    | some f =>
      let types := if typeName ≠ "" then [typeName, ""] else s2.listenTypes
      let es := types.flatMap (fun t =>
        ((lookupL s2.filterListeners t).getD []).filter
          (fun (e : LFun × JFilter) => keySubset e.2 f))
      es.map (fun (e : LFun × JFilter) => (e.1, some e.2))
  let sentries :=
    if typeName ≠ "" then
      ((lookupL s2.simpleListeners typeName).getD []).map
        (fun l => (l, (none : Option JFilter)))
    else []
  ({ typeName := typeName, filterV := filt, entries := fentries ++ sentries }, s2)

/-- hasBeenSeen (informer.js 424-489): a string type is seen when it was
ever emitted; a filter type is checked against the registered filter
listeners under the resolved type name and the empty name (or all
listen types), by the key-subset rule. -/
def hasBeenSeen (ty : EvType) (s : InformerState) : Bool :=
  match ty with
  | .strT t => s.simpleSeen.contains t
  | .filtT f =>
    let typeName := filtName f
    let types := if typeName ≠ "" then [typeName, ""] else s.listenTypes
    types.any (fun t =>
      ((lookupL s.filterListeners t).getD []).any (fun e => keySubset e.2 f))

/-- listeners (informer.js 604-606): `queryListeners(type).slice(2)`. -/
def listenersM (ty : EvType) (s : InformerState) :
    List (LFun × Option JFilter) × InformerState :=
  let qs := queryListeners ty false s
  (qs.1.entries, qs.2)

/-- Appending a simple listener entry, creating the per-type list and
registering the type name when new (informer.js 74-79). -/
def addSimpleEntry (s : InformerState) (t : String) (l : LFun) : InformerState :=
  match lookupL s.simpleListeners t with
  | none =>
      { s with simpleListeners := s.simpleListeners ++ [(t, [l])],
               listenTypes := s.listenTypes ++ [t] }
  | some lst => { s with simpleListeners := setKey s.simpleListeners t (lst ++ [l]) }

/-- Appending a filter listener entry (informer.js 74-79). -/
def addFilterEntry (s : InformerState) (t : String) (l : LFun) (f : JFilter) :
    InformerState :=
  match lookupL s.filterListeners t with
  | none =>
      { s with filterListeners := s.filterListeners ++ [(t, [(l, f)])],
               listenTypes := s.listenTypes ++ [t] }
  | some lst => { s with filterListeners := setKey s.filterListeners t (lst ++ [(l, f)]) }

/-- addListener / on (informer.js 39-82).  The typeof-listener check
cannot fail here because `l` is a function value by construction. -/
def addListenerGo (emitF : EmitF) (ty : EvType) (l : LFun) (s : InformerState) : StOut :=
  let typeName := evName ty
  let r :=
    if (lookupL s.simpleListeners "newListener").isSome
        || (lookupL s.filterListeners "newListener").isSome then
      emitCall emitF (.strT "newListener")
        [evTypeVal ty, .fnV l.unwrapB.topId, .str typeName] s
    else noop s
  r.thenDo (fun s1 =>
    match ty with
    | .strT t => noop (addSimpleEntry s1 t l)
    | .filtT f => noop (addFilterEntry s1 typeName l f))

/-- The reverse scan of removeListener over a simple listener list
(informer.js 253-261), index `i+1` processing live index `i`.  The list
is re-read on every step because a nested `removeListener` meta-emission
may mutate it. -/
def remSimpleAux (emitF : EmitF) (ty : EvType) (t : String) (tid : Nat) :
    Nat → InformerState → StOut
  | 0, s => noop s
  | i + 1, s =>
    let lst := (lookupL s.simpleListeners t).getD []
    let r :=
      match lst.get? i with
      | none => noop s
      | some f =>
        if fnMatches f tid then
          let s' := { s with simpleListeners := setKey s.simpleListeners t (lst.eraseIdx i) }
          if (lookupL s'.simpleListeners "removeListener").isSome then
            emitCall emitF (.strT "removeListener") [evTypeVal ty, .fnV f.topId] s'
          else noop s'
        else noop s
    r.thenDo (remSimpleAux emitF ty t tid i)

/-- The reverse scan of removeListener over a filter listener list
(informer.js 277-307).  Reference equality of filter objects is
modelled as structural equality; when the stored filter is not the same
object it is inspected key by key with the key-subset rule. -/
def remFilterAux (emitF : EmitF) (ty : EvType) (qf : JFilter) (t : String) (tid : Nat) :
    Nat → InformerState → StOut
  | 0, s => noop s
  | i + 1, s =>
    let lst := (lookupL s.filterListeners t).getD []
    let r :=
      match lst.get? i with
      | none => noop s
      | some e =>
        if fnMatches e.1 tid then
          let doalso := if qf ≠ e.2 then keySubset e.2 qf else true
          if doalso then
            let s' := { s with
              filterListeners := setKey s.filterListeners t (lst.eraseIdx i) }
            if (lookupL s'.simpleListeners "removeListener").isSome then
              emitCall emitF (.strT "removeListener") [evTypeVal ty, .fnV e.1.topId] s'
            else noop s'
          else noop s
        else noop s
    r.thenDo (remFilterAux emitF ty qf t tid i)

/-- removeListener (informer.js 232-310), with the target function given
by its identity. -/
def removeListenerGo (emitF : EmitF) (ty : EvType) (tid : Nat) (s : InformerState) : StOut :=
  match ty with
  | .strT t =>
    match lookupL s.simpleListeners t with
    | none => noop s
    | some lst => if lst.isEmpty then noop s else remSimpleAux emitF ty t tid lst.length s
  | .filtT f =>
    let t := filtName f
    match lookupL s.filterListeners t with
    | none => noop s
    | some lst => if lst.isEmpty then noop s else remFilterAux emitF ty f t tid lst.length s

/-- The per-(listener, emission) dispatch context created by
eachListener (informer.js 675-678): it inherits the emitter, carries
the type name and filter, and the mutable flags the listener and the
wait-completion function set on it.  `listenerCb` is the
`ListenerCallback` property, which no reachable code ever assigns on a
context. -/
structure Ctx where
  typeName : String
  filterV : Option JFilter
  past : Bool := false
  asyncV : JsVal := JsVal.undef
  errV : JsVal := JsVal.undef
  isDoneV : Bool := false
  saysStop : Bool := false
  listenerCb : JsVal := JsVal.undef

/-- One basic listener-body effect, executed with `this` bound to the
dispatch context. -/
def runStep0 (emitF : EmitF) (st : Step0) (ctx : Ctx) (s : InformerState) : Ctx × StOut :=
  match st with
  | .setStopFlag =>
      ({ ctx with saysStop := true }, noop s)
  | .waitS mode =>
      ({ ctx with asyncV := mode }, noop s)
  | .callDone e =>
      ({ ctx with errV := e, isDoneV := true }, noop s)
  | .throwE v => (ctx, { s := s, thrown := some v })
  | .removeL ty tid => (ctx, removeListenerGo emitF ty tid s)

/-- One listener-body effect. -/
def runStep (emitF : EmitF) (st : Step) (ctx : Ctx) (s : InformerState) : Ctx × StOut :=
  match st with
  | .basic s0 => runStep0 emitF s0 ctx s
  | .addL ty nid body =>
      (ctx, addListenerGo emitF ty (LFun.user nid (body.map Step.basic)) s)

/-- A listener body, stopping at a propagating exception. -/
def runSteps (emitF : EmitF) : List Step → Ctx → InformerState → Ctx × StOut
  | [], ctx, s => (ctx, noop s)
  | st :: rest, ctx, s =>
      let p := runStep emitF st ctx s
      if p.2.thrown.isSome || p.2.fuelOut then p
      else
        let p2 := runSteps emitF rest p.1 p.2.s
        (p2.1, { p2.2 with trace := p.2.trace ++ p2.2.trace })

/-- Result of invoking a listener function value. -/
structure CallRes where
  ctx : Ctx
  s : InformerState
  trace : List Invoc
  thrown : Option JsVal
  fuelOut : Bool

/-- Invoking a listener function with `this` bound to `ctx`.  A `wrap`
value runs the generated wrapper `g` (informer.js 109-117 / 157-165):
increment `fired`, remove itself when the limit is reached, then apply
the wrapped original with the same context and arguments. -/
def callFn (emitF : EmitF) : LFun → Ctx → List JsVal → InformerState → CallRes
  | .user id body, ctx, args, s =>
      let p := runSteps emitF body ctx s
      { ctx := p.1, s := p.2.s, trace := ⟨id, ctx.past, args⟩ :: p.2.trace,
        thrown := p.2.thrown, fuelOut := p.2.fuelOut }
  | .wrap gid cref times ty inner, ctx, args, s =>
      let fired := s.counters.getD cref 0 + 1
      let s1 := { s with counters := s.counters.set cref fired }
      let r := if (fired : Int) = times then removeListenerGo emitF ty gid s1 else noop s1
      if r.thrown.isSome || r.fuelOut then
        { ctx := ctx, s := r.s, trace := ⟨gid, ctx.past, args⟩ :: r.trace,
          thrown := r.thrown, fuelOut := r.fuelOut }
      else
        let c := callFn emitF inner ctx args r.s
        { ctx := c.ctx, s := c.s, trace := ⟨gid, ctx.past, args⟩ :: (r.trace ++ c.trace),
          thrown := c.thrown, fuelOut := c.fuelOut }

/-- The receiver of a task invocation by the (spec-modelled) series
runner.  A task is invoked as a plain call, so this receiver cannot be
the per-listener context local to eachListener; none of the properties
doListener reads on `this` are ever assigned.  `cbStored` marks the
(unreachable) `this.ListenerCallback = next` assignment. -/
structure TaskThis where
  typeV : JsVal := JsVal.undef
  saysStopV : JsVal := JsVal.undef
  isDoneV : JsVal := JsVal.undef
  cbStored : Bool := false

/-- Snapshot of a parallel handler: the wait-completion state of its
context when the handler would be polled. -/
structure SubSnap where
  isDone : Bool
  errVal : JsVal
  deriving DecidableEq

/-- The mutable state of one emit dispatch (the locals of emit:
shouldBeStopped, isAsync, subtasks, plus the observability traces). -/
structure DSt where
  s : InformerState
  entryTrace : List Nat := []
  trace : List Invoc := []
  isAsync : Bool := false
  stopped : Bool := false
  subtasks : List SubSnap := []
  taskThis : TaskThis := {}

/-- Outcome of one task of the main ordered list. -/
inductive TaskRes where
  | completedT : DSt → TaskRes
  | threwT : DSt → JsVal → TaskRes
  | suspendedT : DSt → TaskRes
  | fuelT : DSt → TaskRes

/-- doListener (informer.js 680-730): invoke the entry's function on a
fresh context, then run the post-invocation checks, which read `this`
of the task invocation (`TaskThis`), not the listener's context. -/
def runTask (emitF : EmitF) (tn : String) (fl : Option JFilter) (args : List JsVal)
    (e : LFun × Option JFilter) (d : DSt) : TaskRes :=
  let ctx : Ctx := { typeName := tn, filterV := fl }
  let c := callFn emitF e.1 ctx args d.s
  let d1 : DSt := { d with
    s := c.s,
    trace := d.trace ++ c.trace,
    entryTrace := d.entryTrace ++ [e.1.topId] }
  if c.fuelOut then .fuelT d1
  else
    match c.thrown with
    | some v => .threwT d1 v
    | none =>
      let d2 := if truthy d1.taskThis.saysStopV then { d1 with stopped := true } else d1
      let d3 := if truthy d2.taskThis.typeV then { d2 with isAsync := true } else d2
      if !(truthy d3.taskThis.typeV) || truthy d3.taskThis.isDoneV then .completedT d3
      else if looseEq d3.taskThis.typeV (.str "series") then
        .suspendedT { d3 with taskThis := { d3.taskThis with cbStored := true } }
      else
        .completedT { d3 with subtasks := d3.subtasks ++ [⟨c.ctx.isDoneV, c.ctx.errV⟩] }

/-- Outcome of the main ordered task list. -/
inductive TasksRes where
  | doneR : DSt → Option JsVal → TasksRes
  | stalledR : DSt → TasksRes
  | fuelR : DSt → TasksRes

/-- The series runner over the main task list (spec-modelled
Function.series): tasks run one at a time, in order, immediately; the
first error stops the list and is reported to the final callback. -/
def runTasks (emitF : EmitF) (tn : String) (fl : Option JFilter) (args : List JsVal) :
    List (LFun × Option JFilter) → DSt → TasksRes
  | [], d => .doneR d none
  | e :: rest, d =>
      match runTask emitF tn fl args e d with
      | .completedT d' => runTasks emitF tn fl args rest d'
      | .threwT d' v => .doneR d' (some v)
      | .suspendedT d' => .stalledR d'
      | .fuelT d' => .fuelR d'

/-- The base EmitOut of a finished or aborted dispatch. -/
def DSt.out (d : DSt) : EmitOut :=
  { state := d.s, entryTrace := d.entryTrace, trace := d.trace,
    isAsync := d.isAsync, stopped := d.stopped }

/-- The message of the generic uncaught-error-event fault. -/
def errEventMsg : String := "Uncaught, unspecified \"error\" event."

/-- seriesDone and parallelDone (informer.js 735-770): when no listener
declared itself asynchronous, a truthy reported error is thrown;
otherwise the trailing callback (the last emit argument, when it is a
function) receives the reported error — combined with the first
parallel-side error when both occurred — and the stopped flag. -/
def finishEmit (args : List JsVal) : TasksRes → EmitOut
  | .fuelR d => { d.out with fuelOut := true }
  | .stalledR d => { d.out with stalled := true }
  | .doneR d ferr =>
    let o := { d.out with firstErr := ferr }
    let errT := match ferr with | some v => truthy v | none => false
    if !d.isAsync then
      if errT then { o with thrown := ferr } else o
    else
      match args.getLast? with
      | some (JsVal.fnV cid) =>
        if d.subtasks.isEmpty then
          { o with cbCalls := [⟨cid, ferr.getD JsVal.undef, d.stopped⟩] }
        else
          if d.subtasks.all (fun t => t.isDone) then
            let subErr := (d.subtasks.map (fun t => t.errVal)).find? truthy
            let combined :=
              match ferr, subErr with
              | some a, some b => if truthy a then JsVal.errPairV a b else a
              | _, _ => ferr.getD JsVal.undef
            { o with cbCalls := [⟨cid, combined, d.stopped⟩] }
          else { o with stalled := true }
      | _ =>
        if errT then { o with thrown := ferr } else o

/-- emit (informer.js 617-773), with `args` the arguments after the
type.  The fuel bounds the nesting depth of meta-emissions; one unit is
consumed per emit call. -/
def emitGo : Nat → EvType → List JsVal → InformerState → EmitOut
  | 0, _, _, s => { state := s, fuelOut := true }
  | n + 1, ty, args, s =>
    let emitF := emitGo n
    let qs := queryListeners ty true s
    let q := qs.1
    let s1 := qs.2
    match q.entries with
    | [] =>
      if ty = EvType.strT "error" then
        let e := args.headD JsVal.undef
        { state := s1,
          thrown := some (if isErrorInst e then e else JsVal.typeErrV errEventMsg) }
      else
        { state := s1 }
    | e0 :: rest =>
      let d0 : DSt := { s := s1 }
      finishEmit args (runTasks emitF q.typeName q.filterV args (e0 :: rest) d0)

/-- emit with enough fuel for the concrete scenarios of this file. -/
def emit (ty : EvType) (args : List JsVal) (s : InformerState) : EmitOut :=
  emitGo 9 ty args s

/-- emitOnce (informer.js 828-832). -/
def emitOnceGo (fuel : Nat) (ty : EvType) (data : JsVal) (s : InformerState) : EmitOut :=
  if hasBeenSeen ty s then { state := s } else emitGo fuel ty [data] s

/-- many / once (informer.js 95-123): register the counting wrapper.
The wrapper id `gid` models the fresh closure identity; the `fired`
counter is allocated at the end of the counter store. -/
def manyGo (emitF : EmitF) (ty : EvType) (times : Int) (l : LFun) (gid : Nat)
    (s : InformerState) : StOut :=
  let cref := s.counters.length
  let s0 := { s with counters := s.counters ++ [0] }
  let g := LFun.wrap gid cref times ty l
  addListenerGo emitF ty g s0

/-- after (informer.js 139-199): register the counting wrapper, then,
when the type has been seen, immediately invoke the wrapper once with a
fresh context flagged `past := true` and no arguments. -/
def afterGo (emitF : EmitF) (ty : EvType) (times : Int) (l : LFun) (gid : Nat)
    (s : InformerState) : StOut :=
  let cref := s.counters.length
  let s0 := { s with counters := s.counters ++ [0] }
  let g := LFun.wrap gid cref times ty l
  let r := addListenerGo emitF ty g s0
  r.thenDo (fun s1 =>
    if hasBeenSeen ty s1 then
      let typeName := evName ty
      let filt : Option JFilter :=
        match ty with
        | EvType.strT _ => none
        | EvType.filtT f => some f
      let ctx : Ctx := { typeName := typeName, filterV := filt, past := true }
      let c := callFn emitF g ctx [] s1
      { s := c.s, trace := c.trace, thrown := c.thrown, fuelOut := c.fuelOut }
    else noop s1)

/-- afterOnce / afterMany with the times argument omitted: times
defaults to 1 and delegates to after (informer.js 212-220). -/
def afterOnceGo (emitF : EmitF) (ty : EvType) (l : LFun) (gid : Nat)
    (s : InformerState) : StOut :=
  afterGo emitF ty 1 l gid s

/-- The invocation trace of one listener function value when its run
raises no exception and performs no meta-emission: the function itself,
then (for a wrapper) the wrapped original, on the same context and
arguments. -/
def fnTraceF (past : Bool) (args : List JsVal) : LFun → List Invoc
  | .user id _ => [⟨id, past, args⟩]
  | .wrap gid _ _ _ inner => ⟨gid, past, args⟩ :: fnTraceF past args inner

/-- The ids appearing in the invocation trace of one function value. -/
def fnInvIds : LFun → List Nat
  | .user id _ => [id]
  | .wrap gid _ _ _ inner => gid :: fnInvIds inner

/-- A basic step that cannot throw. -/
def step0Tame : Step0 → Bool
  | .throwE _ => false
  | _ => true

/-- A step that cannot throw and does not register a listener under a
meta-event name. -/
def stepTame : Step → Bool
  | .basic s0 => step0Tame s0
  | .addL ty _ _ => !(evName ty = "newListener" || evName ty = "removeListener")

/-- A listener function whose run cannot throw and cannot enable a
meta-emission. -/
def fnTame : LFun → Bool
  | .user _ body => body.all stepTame
  | .wrap _ _ _ _ inner => fnTame inner

/-- A plain listener: a user function with an empty body (it observes
its arguments and context and does nothing else). -/
def plainFn : LFun → Bool
  | .user _ [] => true
  | _ => false

/-- The pure state effect of addListener when no `newListener`
subscription exists. -/
def addEntryPure (ty : EvType) (l : LFun) (s : InformerState) : InformerState :=
  match ty with
  | .strT t => addSimpleEntry s t l
  | .filtT f => addFilterEntry s (filtName f) l f

/-- The pure state effect of the simple-listener removal scan when no
`removeListener` subscription exists. -/
def remSimplePure (t : String) (tid : Nat) : Nat → InformerState → InformerState
  | 0, s => s
  | i + 1, s =>
    let lst := (lookupL s.simpleListeners t).getD []
    let s' :=
      match lst.get? i with
      | none => s
      | some f =>
        if fnMatches f tid then
          { s with simpleListeners := setKey s.simpleListeners t (lst.eraseIdx i) }
        else s
    remSimplePure t tid i s'

/-- The pure state effect of the filter-listener removal scan when no
`removeListener` subscription exists. -/
def remFilterPure (qf : JFilter) (t : String) (tid : Nat) : Nat → InformerState → InformerState
  | 0, s => s
  | i + 1, s =>
    let lst := (lookupL s.filterListeners t).getD []
    let s' :=
      match lst.get? i with
      | none => s
      | some e =>
        if fnMatches e.1 tid then
          if (if qf ≠ e.2 then keySubset e.2 qf else true) then
            { s with filterListeners := setKey s.filterListeners t (lst.eraseIdx i) }
          else s
        else s
    remFilterPure qf t tid i s'

/-- The pure state effect of removeListener when no `removeListener`
subscription exists. -/
def removePure (ty : EvType) (tid : Nat) (s : InformerState) : InformerState :=
  match ty with
  | .strT t =>
    match lookupL s.simpleListeners t with
    | none => s
    | some lst => if lst.isEmpty then s else remSimplePure t tid lst.length s
  | .filtT f =>
    let t := filtName f
    match lookupL s.filterListeners t with
    | none => s
    | some lst => if lst.isEmpty then s else remFilterPure f t tid lst.length s

/-- The pure effect of one tame basic step. -/
def runStep0Pure (st : Step0) (ctx : Ctx) (s : InformerState) : Ctx × InformerState :=
  match st with
  | .setStopFlag => ({ ctx with saysStop := true }, s)
  | .waitS mode => ({ ctx with asyncV := mode }, s)
  | .callDone e => ({ ctx with errV := e, isDoneV := true }, s)
  | .throwE _ => (ctx, s)
  | .removeL ty tid => (ctx, removePure ty tid s)

/-- The pure effect of one tame step. -/
def runStepPure (st : Step) (ctx : Ctx) (s : InformerState) : Ctx × InformerState :=
  match st with
  | .basic s0 => runStep0Pure s0 ctx s
  | .addL ty nid body =>
      (ctx, addEntryPure ty (LFun.user nid (body.map Step.basic)) s)

/-- The pure effect of a tame listener body. -/
def runStepsPure : List Step → Ctx → InformerState → Ctx × InformerState
  | [], ctx, s => (ctx, s)
  | st :: rest, ctx, s =>
      let p := runStepPure st ctx s
      runStepsPure rest p.1 p.2

/-- The pure effect of invoking a tame listener function. -/
def callFnPure : LFun → Ctx → List JsVal → InformerState → Ctx × InformerState
  | .user _ body, ctx, _, s => runStepsPure body ctx s
  | .wrap gid cref times ty inner, ctx, args, s =>
      let fired := s.counters.getD cref 0 + 1
      let s1 := { s with counters := s.counters.set cref fired }
      let s2 := if (fired : Int) = times then removePure ty gid s1 else s1
      callFnPure inner ctx args s2

/-- The pure state effect of dispatching a list of tame entries in
order. -/
def tasksPure (tn : String) (fl : Option JFilter) (args : List JsVal) :
    List (LFun × Option JFilter) → InformerState → InformerState
  | [], s => s
  | e :: rest, s =>
      tasksPure tn fl args rest
        (callFnPure e.1 { typeName := tn, filterV := fl } args s).2

/-- The scenario of claim C1: two simple listeners on type t, the first
of which sets the stop flag on its dispatch context. -/
def c1State : InformerState :=
  { emptyInformer with
    simpleListeners :=
      [("t", [LFun.user 1 [Step.basic Step0.setStopFlag], LFun.user 2 []])],
    listenTypes := ["t"] }

/-- The scenario of claim C2: one simple listener that calls
`this.wait('series')` and then synchronously invokes the returned
completion function. -/
def c2State : InformerState :=
  { emptyInformer with
    simpleListeners :=
      [("t", [LFun.user 1 [Step.basic (Step0.waitS (JsVal.str "series")),
                           Step.basic (Step0.callDone JsVal.undef)]])],
    listenTypes := ["t"] }

/-- The scenario of claim C3: one simple listener that throws. -/
def c3State : InformerState :=
  { emptyInformer with
    simpleListeners := [("t", [LFun.user 1 [Step.basic (Step0.throwE (JsVal.errV 3))]])],
    listenTypes := ["t"] }

/-- The filter of claim C4's failing input. -/
def c4Filter : JFilter := [("type", JsVal.str "t"), ("a", JsVal.num 1)]

/-- The witness registry of claim C7: two plain listeners on type t. -/
def c7WState : InformerState :=
  { emptyInformer with
    simpleListeners := [("t", [LFun.user 1 [], LFun.user 2 []])],
    listenTypes := ["t"] }

/-- The witness registry of claim C9: a plain listener, a once-wrapper
that removes itself during dispatch, and another plain listener. -/
def c9WState : InformerState :=
  { emptyInformer with
    simpleListeners :=
      [("t", [LFun.user 1 [],
              LFun.wrap 7 0 1 (EvType.strT "t") (LFun.user 8 []),
              LFun.user 3 []])],
    listenTypes := ["t"], counters := [0] }

/-- The witness registry of claim C10: one plain listener on type t,
and t already seen. -/
def c10WState : InformerState :=
  { emptyInformer with
    simpleListeners := [("t", [LFun.user 1 []])],
    listenTypes := ["t"], simpleSeen := ["t"] }

/-- The filter descriptor of claim C8's counterexample. -/
def c8Filter : JFilter := [("type", JsVal.str "u"), ("b", JsVal.num 2)]

/-- C1: the source defines a stop capability (informer.js 815-817) and
doListener tests `this.ListenerSaysStop` (699-701), but the skip guard
sits in eachListener (672), which runs while the task list is being
built, before any task has executed, and the flag test reads the task
receiver rather than the listener context.  A listener that sets
`ListenerSaysStop = true` on its dispatch context therefore does not
prevent any later listener from running: both listeners of `c1State`
are invoked, in order, and the emission does not even report itself
stopped. -/
theorem claim_C1_stop_has_no_effect :
    (emit (EvType.strT "t") [] c1State).entryTrace = [1, 2] ∧
    (emit (EvType.strT "t") [] c1State).trace =
      [⟨1, false, []⟩, ⟨2, false, []⟩] ∧
    (emit (EvType.strT "t") [] c1State).stopped = false ∧
    (emit (EvType.strT "t") [] c1State).thrown = none :=
  ⟨rfl, rfl, rfl, rfl⟩

/-- C2: a listener that calls `this.wait('series')` and invokes the
returned completion function synchronously does not make the emission
asynchronous, because `wait` stores the mode in `this.async` of the
context (informer.js 794) while doListener tests `this.type` of the
task receiver (703-708); the supplied trailing callback is never
invoked. -/
theorem claim_C2_wait_is_inert :
    (emit (EvType.strT "t") [JsVal.fnV 7] c2State).isAsync = false ∧
    (emit (EvType.strT "t") [JsVal.fnV 7] c2State).cbCalls = [] ∧
    (emit (EvType.strT "t") [JsVal.fnV 7] c2State).thrown = none ∧
    (emit (EvType.strT "t") [JsVal.fnV 7] c2State).entryTrace = [1] :=
  ⟨rfl, rfl, rfl, rfl⟩

/-- C3, counterexample: an emission whose only listener throws, called
with a trailing callback function, still throws the error out of emit
and never invokes the callback — seriesDone (informer.js 738-744)
throws without consulting the callback when no listener was
asynchronous, contradicting the claim's "unless the last argument is a
function" clause. -/
theorem claim_C3_counterexample :
    (emit (EvType.strT "t") [JsVal.fnV 7] c3State).isAsync = false ∧
    (emit (EvType.strT "t") [JsVal.fnV 7] c3State).firstErr = some (JsVal.errV 3) ∧
    (emit (EvType.strT "t") [JsVal.fnV 7] c3State).thrown = some (JsVal.errV 3) ∧
    (emit (EvType.strT "t") [JsVal.fnV 7] c3State).cbCalls = [] :=
  ⟨rfl, rfl, rfl, rfl⟩

/-- C4: `hasBeenSeen` on a filter scans the registered filter listeners
(informer.js 459-486), not the emitted-filter history `filterSeen`
(which queryListeners maintains but nothing ever reads).  Emitting the
filter `{type:'t', a:1}` on a fresh emitter records it in `filterSeen`,
yet `hasBeenSeen` of that very filter still returns false; conversely,
merely registering a listener under the filter — with no emission at
all — makes `hasBeenSeen` return true. -/
theorem claim_C4_seen_is_registration :
    hasBeenSeen (EvType.filtT c4Filter)
      (emit (EvType.filtT c4Filter) [] emptyInformer).state = false ∧
    (emit (EvType.filtT c4Filter) [] emptyInformer).state.filterSeen = [c4Filter] ∧
    hasBeenSeen (EvType.filtT c4Filter)
      (addListenerGo (emitGo 9) (EvType.filtT c4Filter) (LFun.user 5 [])
        emptyInformer).s = true :=
  ⟨rfl, rfl, rfl⟩

/-- C6, counterexample: the universally quantified claim fails at the
type name `error`: on a fresh emitter with no listeners at all,
`emit('error')` throws the generic uncaught-error-event TypeError
(informer.js 637-648) instead of returning. -/
theorem claim_C6_counterexample :
    (emit (EvType.strT "error") [] emptyInformer).thrown =
      some (JsVal.typeErrV errEventMsg) :=
  rfl

/-- C5: an emit whose type is exactly the string `error` and for which
the query returned no listener beyond the two metadata slots throws the
first event argument: an Error instance as-is, anything else replaced
by the generic TypeError fault (informer.js 637-648).  No listener is
invoked. -/
theorem claim_C5_error_uncaught (n : Nat) (args : List JsVal) (s : InformerState)
    (h : ((queryListeners (EvType.strT "error") true s).1).entries = []) :
    (emitGo (n + 1) (EvType.strT "error") args s).thrown =
      some (if isErrorInst (args.headD JsVal.undef) then args.headD JsVal.undef
            else JsVal.typeErrV errEventMsg) ∧
    (emitGo (n + 1) (EvType.strT "error") args s).trace = [] ∧
    (emitGo (n + 1) (EvType.strT "error") args s).cbCalls = [] := by
  simp only [emitGo, h]
  simp

/-- Witness for C5: a fresh emitter, `emit('error', {})`; the argument
is not an Error instance, so the generic TypeError fault is thrown. -/
theorem claim_C5_error_uncaught_witness :
    ((queryListeners (EvType.strT "error") true emptyInformer).1).entries = [] ∧
    (emitGo 1 (EvType.strT "error") [JsVal.objV 0] emptyInformer).thrown =
      some (JsVal.typeErrV errEventMsg) := by
  refine ⟨rfl, ?_⟩
  have h := claim_C5_error_uncaught 0 [JsVal.objV 0] emptyInformer rfl
  rw [h.1]
  rfl

/-- C6, amended: for every type name other than `error`, emitting on an
emitter with no listeners registered returns without throwing, without
invoking any listener and without invoking a trailing callback
argument. -/
theorem claim_C6_amended_noop (n : Nat) (t : String) (args : List JsVal)
    (s : InformerState) (ht : t ≠ "error")
    (hsl : s.simpleListeners = []) (hfl : s.filterListeners = []) :
    (emitGo (n + 1) (EvType.strT t) args s).thrown = none ∧
    (emitGo (n + 1) (EvType.strT t) args s).cbCalls = [] ∧
    (emitGo (n + 1) (EvType.strT t) args s).trace = [] := by
  have hq : ((queryListeners (EvType.strT t) true s).1).entries = [] := by
    simp [queryListeners, hsl, lookupL]
  have hunused : s.filterListeners = [] := hfl
  simp only [emitGo, hq]
  simp [ht]

/-- Witness for C6: a fresh emitter, type name `t`, with a trailing
function argument. -/
theorem claim_C6_amended_noop_witness :
    ("t" : String) ≠ "error" ∧
    (emitGo 1 (EvType.strT "t") [JsVal.fnV 3] emptyInformer).thrown = none ∧
    (emitGo 1 (EvType.strT "t") [JsVal.fnV 3] emptyInformer).cbCalls = [] := by
  have h := claim_C6_amended_noop 0 "t" [JsVal.fnV 3] emptyInformer (by decide) rfl rfl
  exact ⟨by decide, h.1, h.2.1⟩

/-- C8, counterexample: the claimed consequence does not hold for every
type descriptor.  On a fresh emitter, the introspection call
`listeners(F)` for the filter descriptor F marks the resolved name as
seen and records F in `filterSeen`, yet `hasBeenSeen(F)` afterwards is
still false, because the filter branch of `hasBeenSeen`
(informer.js 459-486) scans the registered filter listeners — none
exist — and never the `filterSeen` history. -/
theorem claim_C8_counterexample :
    ((listenersM (EvType.filtT c8Filter) emptyInformer).2).filterSeen = [c8Filter] ∧
    ((listenersM (EvType.filtT c8Filter) emptyInformer).2).simpleSeen = ["u"] ∧
    hasBeenSeen (EvType.filtT c8Filter)
      (listenersM (EvType.filtT c8Filter) emptyInformer).2 = false :=
  ⟨rfl, rfl, rfl⟩

/-- C8, amended: queryListeners ignores its `markAsSeen` argument
entirely (the call result and state are identical for any value of it),
always marks the resolved type name as seen, and records a present
filter in `filterSeen`; consequently the introspection call
`listeners(T)` alone makes `hasBeenSeen(T)` return true afterwards for
a string type name T, whatever the registry contains — but not for a
filter descriptor without a matching registered listener, since
`hasBeenSeen`'s filter branch consults the registered filter listeners,
never `filterSeen` (the divergence documented at claim C4). -/
theorem claim_C8_query_marks_seen :
    (∀ (ty : EvType) (b : Bool) (s : InformerState),
        queryListeners ty b s = queryListeners ty true s) ∧
    (∀ (ty : EvType) (b : Bool) (s : InformerState),
        ((queryListeners ty b s).2).simpleSeen = evName ty :: s.simpleSeen) ∧
    (∀ (f : JFilter) (b : Bool) (s : InformerState),
        ((queryListeners (EvType.filtT f) b s).2).filterSeen = s.filterSeen ++ [f]) ∧
    (∀ (t : String) (s : InformerState),
        hasBeenSeen (EvType.strT t) (listenersM (EvType.strT t) s).2 = true) := by
  refine ⟨fun ty b s => rfl, fun ty b s => ?_, fun f b s => ?_, fun t s => ?_⟩
  · cases ty <;> simp [queryListeners]
  · simp [queryListeners]
  · simp [listenersM, queryListeners, hasBeenSeen, evName]

/-- When an emission's completion phase reports itself synchronous, the
trailing callback is never invoked, and a truthy error reported by the
task list is thrown. -/
theorem finishEmit_sync (args : List JsVal) (tr : TasksRes)
    (h : (finishEmit args tr).isAsync = false) :
    (finishEmit args tr).cbCalls = [] ∧
    ∀ v, (finishEmit args tr).firstErr = some v → truthy v = true →
      (finishEmit args tr).thrown = some v := by
  cases tr with
  | fuelR d => simp [finishEmit, DSt.out]
  | stalledR d => simp [finishEmit, DSt.out]
  | doneR d ferr =>
    by_cases hA : d.isAsync = true
    · exfalso
      simp only [finishEmit, DSt.out, hA] at h
      repeat' split at h
      all_goals simp_all
    · have hA' : d.isAsync = false := by simpa using hA
      cases ferr with
      | none => simp [finishEmit, DSt.out, hA']
      | some v =>
        by_cases hv : truthy v = true
        · simp [finishEmit, DSt.out, hA', hv]
        · simp [finishEmit, DSt.out, hA', hv]

/-- C3, amended: for every emit in which no listener declared itself
asynchronous (the emission reports `isAsync = false`), the trailing
callback — function-valued last argument or not — is never invoked,
and any truthy listener-reported error is raised synchronously out of
emit itself. -/
theorem claim_C3_sync_error_thrown (n : Nat) (ty : EvType) (args : List JsVal)
    (s : InformerState)
    (hsync : (emitGo (n + 1) ty args s).isAsync = false) :
    (emitGo (n + 1) ty args s).cbCalls = [] ∧
    ∀ v, (emitGo (n + 1) ty args s).firstErr = some v → truthy v = true →
      (emitGo (n + 1) ty args s).thrown = some v := by
  cases hq : ((queryListeners ty true s).1).entries with
  | nil =>
    simp only [emitGo, hq] at hsync ⊢
    by_cases hty : ty = EvType.strT "error" <;> simp [hty]
  | cons e0 rest =>
    simp only [emitGo, hq] at hsync ⊢
    exact finishEmit_sync args _ hsync

/-- Witness for C3's amended claim at the concrete scenario: the
throwing listener of `c3State`, a trailing callback supplied; the
emission is synchronous and the listener error is thrown out of emit. -/
theorem claim_C3_sync_error_thrown_witness :
    (emitGo 9 (EvType.strT "t") [JsVal.fnV 7] c3State).isAsync = false ∧
    (emitGo 9 (EvType.strT "t") [JsVal.fnV 7] c3State).cbCalls = [] ∧
    (emitGo 9 (EvType.strT "t") [JsVal.fnV 7] c3State).thrown = some (JsVal.errV 3) := by
  have h := claim_C3_sync_error_thrown 8 (EvType.strT "t") [JsVal.fnV 7] c3State rfl
  exact ⟨rfl, h.1, h.2 (JsVal.errV 3) rfl rfl⟩

theorem lookupL_setKey_ne {α : Type} (m : List (String × α)) (k k' : String) (v : α)
    (h : k' ≠ k) : lookupL (setKey m k v) k' = lookupL m k' := by
  induction m with
  | nil => simp [setKey, lookupL, Ne.symm h]
  | cons p rest ih =>
    obtain ⟨a, b⟩ := p
    by_cases hk : a = k
    · subst hk
      simp [setKey, lookupL, Ne.symm h]
    · simp only [setKey, lookupL, if_neg hk]
      by_cases ha : a = k' <;> simp [lookupL, ha, ih]

theorem lookupL_setKey_eq {α : Type} (m : List (String × α)) (k : String) (v : α) :
    lookupL (setKey m k v) k = some v := by
  induction m with
  | nil => simp [setKey, lookupL]
  | cons p rest ih =>
    obtain ⟨a, b⟩ := p
    by_cases hk : a = k
    · subst hk; simp [setKey, lookupL]
    · simp [setKey, lookupL, hk, ih]

theorem setKey_self {α : Type} (m : List (String × α)) (k : String) (v : α)
    (h : lookupL m k = some v) : setKey m k v = m := by
  induction m with
  | nil => simp [lookupL] at h
  | cons p rest ih =>
    obtain ⟨a, b⟩ := p
    by_cases hk : a = k
    · subst hk
      simp [lookupL] at h
      simp [setKey, h]
    · simp [lookupL, hk] at h
      simp [setKey, hk, ih h]

theorem lookupL_append_none {α : Type} (m1 m2 : List (String × α)) (k : String)
    (h : lookupL m1 k = none) : lookupL (m1 ++ m2) k = lookupL m2 k := by
  induction m1 with
  | nil => simp
  | cons p rest ih =>
    obtain ⟨a, b⟩ := p
    by_cases hk : a = k
    · simp [lookupL, hk] at h
    · simp [lookupL, hk] at h ⊢
      exact ih h

theorem lookupL_append_some {α : Type} (m1 m2 : List (String × α)) (k : String) (v : α)
    (h : lookupL m1 k = some v) : lookupL (m1 ++ m2) k = some v := by
  induction m1 with
  | nil => simp [lookupL] at h
  | cons p rest ih =>
    obtain ⟨a, b⟩ := p
    by_cases hk : a = k
    · simp [lookupL, hk] at h ⊢; exact h
    · simp [lookupL, hk] at h ⊢
      exact ih h

theorem lookupL_mem {α : Type} (m : List (String × α)) (k : String) (v : α)
    (h : lookupL m k = some v) : (k, v) ∈ m := by
  induction m with
  | nil => simp [lookupL] at h
  | cons p rest ih =>
    obtain ⟨a, b⟩ := p
    by_cases hk : a = k
    · subst hk
      simp [lookupL] at h
      simp [h]
    · simp [lookupL, hk] at h
      exact List.mem_cons_of_mem _ (ih h)

theorem metaFree_iff (s : InformerState) :
    metaFree s = true ↔
      lookupL s.simpleListeners "newListener" = none ∧
      lookupL s.filterListeners "newListener" = none ∧
      lookupL s.simpleListeners "removeListener" = none := by
  simp [metaFree, Bool.and_eq_true, Option.isNone_iff_eq_none, and_assoc]

theorem queryListeners_snd (ty : EvType) (b : Bool) (s : InformerState) :
    (queryListeners ty b s).2 =
      { s with
        simpleSeen := evName ty :: s.simpleSeen,
        filterSeen := s.filterSeen ++
          (match ty with | .strT _ => [] | .filtT f => [f]) } := by
  cases ty <;> simp [queryListeners]

theorem metaFree_queryListeners (ty : EvType) (b : Bool) (s : InformerState) :
    metaFree (queryListeners ty b s).2 = metaFree s := by
  rw [queryListeners_snd]; rfl

theorem queryListeners_entries_str (t : String) (b : Bool) (s : InformerState)
    (ht : t ≠ "") :
    ((queryListeners (EvType.strT t) b s).1).entries =
      ((lookupL s.simpleListeners t).getD []).map
        (fun l => (l, (none : Option JFilter))) := by
  simp [queryListeners, evName, ht]

theorem metaFree_set_simple (s : InformerState) (t : String) (l' : List LFun)
    (hm : metaFree s = true) (ht1 : t ≠ "newListener") (ht2 : t ≠ "removeListener") :
    metaFree { s with simpleListeners := setKey s.simpleListeners t l' } = true := by
  rcases (metaFree_iff s).1 hm with ⟨h1, h2, h3⟩
  refine (metaFree_iff _).2 ⟨?_, ?_, ?_⟩
  · simpa [lookupL_setKey_ne _ _ _ _ (Ne.symm ht1)] using h1
  · exact h2
  · simpa [lookupL_setKey_ne _ _ _ _ (Ne.symm ht2)] using h3

theorem metaFree_set_filter (s : InformerState) (t : String)
    (l' : List (LFun × JFilter))
    (hm : metaFree s = true) (ht1 : t ≠ "newListener") :
    metaFree { s with filterListeners := setKey s.filterListeners t l' } = true := by
  rcases (metaFree_iff s).1 hm with ⟨h1, h2, h3⟩
  refine (metaFree_iff _).2 ⟨h1, ?_, h3⟩
  simpa [lookupL_setKey_ne _ _ _ _ (Ne.symm ht1)] using h2

theorem ne_meta_of_lookup_simple (s : InformerState) (t : String) (v : List LFun)
    (hm : metaFree s = true) (h : lookupL s.simpleListeners t = some v) :
    t ≠ "newListener" ∧ t ≠ "removeListener" := by
  rcases (metaFree_iff s).1 hm with ⟨h1, _, h3⟩
  constructor
  · rintro rfl; rw [h1] at h; exact Option.noConfusion h
  · rintro rfl; rw [h3] at h; exact Option.noConfusion h

theorem ne_meta_of_lookup_filter (s : InformerState) (t : String)
    (v : List (LFun × JFilter))
    (hm : metaFree s = true) (h : lookupL s.filterListeners t = some v) :
    t ≠ "newListener" := by
  rcases (metaFree_iff s).1 hm with ⟨_, h2, _⟩
  rintro rfl; rw [h2] at h; exact Option.noConfusion h

theorem metaFree_addEntryPure (ty : EvType) (l : LFun) (s : InformerState)
    (hm : metaFree s = true)
    (h1 : evName ty ≠ "newListener") (h2 : evName ty ≠ "removeListener") :
    metaFree (addEntryPure ty l s) = true := by
  rcases (metaFree_iff s).1 hm with ⟨m1, m2, m3⟩
  cases ty with
  | strT t =>
    simp only [evName] at h1 h2
    simp only [addEntryPure, addSimpleEntry]
    cases hl : lookupL s.simpleListeners t with
    | none =>
      refine (metaFree_iff _).2 ⟨?_, m2, ?_⟩
      · rw [lookupL_append_none _ _ _ m1]; simp [lookupL, h1]
      · rw [lookupL_append_none _ _ _ m3]; simp [lookupL, h2]
    | some lst =>
      exact metaFree_set_simple s t _ hm h1 h2
  | filtT f =>
    simp only [evName] at h1 h2
    simp only [addEntryPure, addFilterEntry]
    cases hl : lookupL s.filterListeners (filtName f) with
    | none =>
      refine (metaFree_iff _).2 ⟨m1, ?_, m3⟩
      rw [lookupL_append_none _ _ _ m2]; simp [lookupL, h1]
    | some lst =>
      exact metaFree_set_filter s (filtName f) _ hm h1

theorem thenDo_noop (s : InformerState) (f : InformerState → StOut) :
    (noop s).thenDo f = f s := rfl

theorem metaFree_remSimplePure (t : String) (tid : Nat) :
    ∀ (i : Nat) (s : InformerState), metaFree s = true →
      metaFree (remSimplePure t tid i s) = true := by
  intro i
  induction i with
  | zero => intro s hm; simpa [remSimplePure] using hm
  | succ i ih =>
    intro s hm
    simp only [remSimplePure]
    cases hg : ((lookupL s.simpleListeners t).getD []).get? i with
    | none => dsimp only; exact ih s hm
    | some f =>
      dsimp only
      by_cases hf : fnMatches f tid = true
      · rw [if_pos hf]
        apply ih
        cases hl : lookupL s.simpleListeners t with
        | none => rw [hl] at hg; simp at hg
        | some lst =>
          rcases ne_meta_of_lookup_simple s t lst hm hl with ⟨h1, h2⟩
          exact metaFree_set_simple s t _ hm h1 h2
      · rw [if_neg hf]
        exact ih s hm

theorem remSimpleAux_eq (emitF : EmitF) (ty : EvType) (t : String) (tid : Nat) :
    ∀ (i : Nat) (s : InformerState), metaFree s = true →
      remSimpleAux emitF ty t tid i s = noop (remSimplePure t tid i s) := by
  intro i
  induction i with
  | zero => intro s hm; rfl
  | succ i ih =>
    intro s hm
    simp only [remSimpleAux, remSimplePure]
    cases hg : ((lookupL s.simpleListeners t).getD []).get? i with
    | none =>
      dsimp only
      rw [thenDo_noop, ih s hm]
    | some f =>
      dsimp only
      by_cases hf : fnMatches f tid = true
      · rw [if_pos hf, if_pos hf]
        have hl : ∃ lst, lookupL s.simpleListeners t = some lst := by
          cases hl : lookupL s.simpleListeners t with
          | none => rw [hl] at hg; simp at hg
          | some lst => exact ⟨lst, rfl⟩
        rcases hl with ⟨lst, hl⟩
        rcases ne_meta_of_lookup_simple s t lst hm hl with ⟨h1, h2⟩
        have hm' := metaFree_set_simple s t
          (((lookupL s.simpleListeners t).getD []).eraseIdx i) hm h1 h2
        have hrm : lookupL (setKey s.simpleListeners t
            (((lookupL s.simpleListeners t).getD []).eraseIdx i)) "removeListener" = none := by
          rcases (metaFree_iff _).1 hm with ⟨_, _, m3⟩
          simpa [lookupL_setKey_ne _ _ _ _ (Ne.symm h2)] using m3
        simp only [hrm, Option.isSome_none]
        rw [if_neg Bool.false_ne_true, thenDo_noop, ih _ hm']
      · rw [if_neg hf, if_neg hf, thenDo_noop, ih s hm]

theorem metaFree_remFilterPure (qf : JFilter) (t : String) (tid : Nat) :
    ∀ (i : Nat) (s : InformerState), metaFree s = true →
      metaFree (remFilterPure qf t tid i s) = true := by
  intro i
  induction i with
  | zero => intro s hm; simpa [remFilterPure] using hm
  | succ i ih =>
    intro s hm
    simp only [remFilterPure]
    cases hg : ((lookupL s.filterListeners t).getD []).get? i with
    | none => dsimp only; exact ih s hm
    | some e =>
      dsimp only
      by_cases hf : fnMatches e.1 tid = true
      · rw [if_pos hf]
        by_cases hd : (if qf ≠ e.2 then keySubset e.2 qf else true) = true
        · rw [if_pos hd]
          apply ih
          cases hl : lookupL s.filterListeners t with
          | none => rw [hl] at hg; simp at hg
          | some lst =>
            have h1 := ne_meta_of_lookup_filter s t lst hm hl
            exact metaFree_set_filter s t _ hm h1
        · rw [if_neg hd]
          exact ih s hm
      · rw [if_neg hf]
        exact ih s hm

theorem remFilterAux_eq (emitF : EmitF) (ty : EvType) (qf : JFilter) (t : String)
    (tid : Nat) :
    ∀ (i : Nat) (s : InformerState), metaFree s = true →
      remFilterAux emitF ty qf t tid i s = noop (remFilterPure qf t tid i s) := by
  intro i
  induction i with
  | zero => intro s hm; rfl
  | succ i ih =>
    intro s hm
    simp only [remFilterAux, remFilterPure]
    cases hg : ((lookupL s.filterListeners t).getD []).get? i with
    | none =>
      dsimp only
      rw [thenDo_noop, ih s hm]
    | some e =>
      dsimp only
      by_cases hf : fnMatches e.1 tid = true
      · rw [if_pos hf, if_pos hf]
        by_cases hd : (if qf ≠ e.2 then keySubset e.2 qf else true) = true
        · rw [if_pos hd, if_pos hd]
          have hl : ∃ lst, lookupL s.filterListeners t = some lst := by
            cases hl : lookupL s.filterListeners t with
            | none => rw [hl] at hg; simp at hg
            | some lst => exact ⟨lst, rfl⟩
          rcases hl with ⟨lst, hl⟩
          have h1 := ne_meta_of_lookup_filter s t lst hm hl
          have hm' := metaFree_set_filter s t
            (((lookupL s.filterListeners t).getD []).eraseIdx i) hm h1
          have hrm : lookupL s.simpleListeners "removeListener" = none :=
            ((metaFree_iff _).1 hm).2.2
          simp only [hrm, Option.isSome_none]
          rw [if_neg Bool.false_ne_true, thenDo_noop, ih _ hm']
        · rw [if_neg hd, if_neg hd, thenDo_noop, ih s hm]
      · rw [if_neg hf, if_neg hf, thenDo_noop, ih s hm]

theorem metaFree_removePure (ty : EvType) (tid : Nat) (s : InformerState)
    (hm : metaFree s = true) : metaFree (removePure ty tid s) = true := by
  cases ty with
  | strT t =>
    simp only [removePure]
    cases lookupL s.simpleListeners t with
    | none => exact hm
    | some lst =>
      dsimp only
      by_cases he : lst.isEmpty = true
      · rw [if_pos he]; exact hm
      · rw [if_neg he]; exact metaFree_remSimplePure t tid _ s hm
  | filtT f =>
    simp only [removePure]
    cases lookupL s.filterListeners (filtName f) with
    | none => exact hm
    | some lst =>
      dsimp only
      by_cases he : lst.isEmpty = true
      · rw [if_pos he]; exact hm
      · rw [if_neg he]; exact metaFree_remFilterPure f (filtName f) tid _ s hm

theorem removeListenerGo_eq (emitF : EmitF) (ty : EvType) (tid : Nat)
    (s : InformerState) (hm : metaFree s = true) :
    removeListenerGo emitF ty tid s = noop (removePure ty tid s) := by
  cases ty with
  | strT t =>
    simp only [removeListenerGo, removePure]
    cases lookupL s.simpleListeners t with
    | none => rfl
    | some lst =>
      dsimp only
      by_cases he : lst.isEmpty = true
      · rw [if_pos he, if_pos he]
      · rw [if_neg he, if_neg he]
        exact remSimpleAux_eq emitF (EvType.strT t) t tid _ s hm
  | filtT f =>
    simp only [removeListenerGo, removePure]
    cases lookupL s.filterListeners (filtName f) with
    | none => rfl
    | some lst =>
      dsimp only
      by_cases he : lst.isEmpty = true
      · rw [if_pos he, if_pos he]
      · rw [if_neg he, if_neg he]
        exact remFilterAux_eq emitF (EvType.filtT f) f (filtName f) tid _ s hm

theorem addListenerGo_eq (emitF : EmitF) (ty : EvType) (l : LFun)
    (s : InformerState) (hm : metaFree s = true) :
    addListenerGo emitF ty l s = noop (addEntryPure ty l s) := by
  rcases (metaFree_iff _).1 hm with ⟨m1, m2, _⟩
  cases ty with
  | strT t =>
    simp only [addListenerGo, m1, m2, Option.isSome_none, Bool.or_self]
    rw [if_neg Bool.false_ne_true, thenDo_noop]
    rfl
  | filtT f =>
    simp only [addListenerGo, m1, m2, Option.isSome_none, Bool.or_self]
    rw [if_neg Bool.false_ne_true, thenDo_noop]
    rfl

theorem runStep0_eq (emitF : EmitF) (st : Step0) (ctx : Ctx) (s : InformerState)
    (hm : metaFree s = true) (ht : step0Tame st = true) :
    runStep0 emitF st ctx s =
      ((runStep0Pure st ctx s).1, noop (runStep0Pure st ctx s).2) ∧
    metaFree (runStep0Pure st ctx s).2 = true := by
  cases st with
  | setStopFlag => exact ⟨rfl, hm⟩
  | waitS mode => exact ⟨rfl, hm⟩
  | callDone e => exact ⟨rfl, hm⟩
  | throwE v => simp [step0Tame] at ht
  | removeL ty tid =>
    refine ⟨?_, metaFree_removePure ty tid s hm⟩
    simp only [runStep0, runStep0Pure]
    rw [removeListenerGo_eq emitF ty tid s hm]

theorem runStep_eq (emitF : EmitF) (st : Step) (ctx : Ctx) (s : InformerState)
    (hm : metaFree s = true) (ht : stepTame st = true) :
    runStep emitF st ctx s =
      ((runStepPure st ctx s).1, noop (runStepPure st ctx s).2) ∧
    metaFree (runStepPure st ctx s).2 = true := by
  cases st with
  | basic s0 => exact runStep0_eq emitF s0 ctx s hm ht
  | addL ty nid body =>
    simp only [stepTame, Bool.not_eq_true', Bool.or_eq_false_iff,
      decide_eq_false_iff_not] at ht
    refine ⟨?_, metaFree_addEntryPure ty _ s hm ht.1 ht.2⟩
    simp only [runStep, runStepPure]
    rw [addListenerGo_eq emitF ty _ s hm]

theorem runSteps_eq (emitF : EmitF) :
    ∀ (body : List Step) (ctx : Ctx) (s : InformerState),
      metaFree s = true → body.all stepTame = true →
      runSteps emitF body ctx s =
        ((runStepsPure body ctx s).1, noop (runStepsPure body ctx s).2) ∧
      metaFree (runStepsPure body ctx s).2 = true := by
  intro body
  induction body with
  | nil => intro ctx s hm _; exact ⟨rfl, hm⟩
  | cons st rest ih =>
    intro ctx s hm ht
    simp only [List.all_cons, Bool.and_eq_true] at ht
    obtain ⟨hst, hrest⟩ := ht
    obtain ⟨he, hmp⟩ := runStep_eq emitF st ctx s hm hst
    simp only [runSteps, runStepsPure, he]
    obtain ⟨he2, hmp2⟩ := ih (runStepPure st ctx s).1 (runStepPure st ctx s).2 hmp hrest
    simp only [noop, Option.isSome_none, Bool.or_self]
    rw [if_neg Bool.false_ne_true]
    refine ⟨?_, hmp2⟩
    rw [he2]
    rfl

theorem callFn_eq (emitF : EmitF) :
    ∀ (f : LFun) (ctx : Ctx) (args : List JsVal) (s : InformerState),
      metaFree s = true → fnTame f = true →
      callFn emitF f ctx args s =
        { ctx := (callFnPure f ctx args s).1, s := (callFnPure f ctx args s).2,
          trace := fnTraceF ctx.past args f, thrown := none, fuelOut := false } ∧
      metaFree (callFnPure f ctx args s).2 = true := by
  intro f
  induction f with
  | user id body =>
    intro ctx args s hm ht
    simp only [fnTame] at ht
    obtain ⟨he, hmp⟩ := runSteps_eq emitF body ctx s hm ht
    refine ⟨?_, hmp⟩
    simp only [callFn, callFnPure, fnTraceF, he, noop]
  | wrap gid cref times ty inner ih =>
    intro ctx args s hm ht
    simp only [fnTame] at ht
    simp only [callFn, callFnPure, fnTraceF]
    have hm1 : metaFree { s with counters := s.counters.set cref (s.counters.getD cref 0 + 1) } = true := hm
    by_cases hfi : ((s.counters.getD cref 0 + 1 : Nat) : Int) = times
    · rw [if_pos hfi, if_pos hfi]
      rw [removeListenerGo_eq emitF ty gid _ hm1]
      have hm2 := metaFree_removePure ty gid _ hm1
      obtain ⟨he2, hmp2⟩ := ih ctx args _ hm2 ht
      simp only [noop, Option.isSome_none, Bool.or_self]
      rw [if_neg Bool.false_ne_true]
      rw [he2]
      exact ⟨rfl, hmp2⟩
    · rw [if_neg hfi, if_neg hfi]
      obtain ⟨he2, hmp2⟩ := ih ctx args _ hm1 ht
      simp only [noop, Option.isSome_none, Bool.or_self]
      rw [if_neg Bool.false_ne_true]
      rw [he2]
      exact ⟨rfl, hmp2⟩

theorem runTask_eq (emitF : EmitF) (tn : String) (fl : Option JFilter)
    (args : List JsVal) (e : LFun × Option JFilter) (d : DSt)
    (hm : metaFree d.s = true) (ht : fnTame e.1 = true) (hT : d.taskThis = {}) :
    runTask emitF tn fl args e d =
      TaskRes.completedT
        { d with
          s := (callFnPure e.1 { typeName := tn, filterV := fl } args d.s).2,
          trace := d.trace ++ fnTraceF false args e.1,
          entryTrace := d.entryTrace ++ [e.1.topId] } ∧
    metaFree (callFnPure e.1 { typeName := tn, filterV := fl } args d.s).2 = true := by
  obtain ⟨he, hmp⟩ := callFn_eq emitF e.1 { typeName := tn, filterV := fl } args d.s hm ht
  refine ⟨?_, hmp⟩
  simp only [runTask, he]
  rw [hT]
  rfl

theorem runTasks_eq (emitF : EmitF) (tn : String) (fl : Option JFilter)
    (args : List JsVal) :
    ∀ (entries : List (LFun × Option JFilter)) (d : DSt),
      metaFree d.s = true → (∀ e ∈ entries, fnTame e.1 = true) →
      d.taskThis = {} →
      runTasks emitF tn fl args entries d =
        TasksRes.doneR
          { d with
            s := tasksPure tn fl args entries d.s,
            trace := d.trace ++
              entries.flatMap (fun e => fnTraceF false args e.1),
            entryTrace := d.entryTrace ++ entries.map (fun e => e.1.topId) }
          none ∧
      metaFree (tasksPure tn fl args entries d.s) = true := by
  intro entries
  induction entries with
  | nil =>
    intro d hm _ hT
    refine ⟨?_, hm⟩
    simp [runTasks, tasksPure]
  | cons e rest ih =>
    intro d hm ht hT
    obtain ⟨he, hmp⟩ := runTask_eq emitF tn fl args e d hm (ht e (by simp)) hT
    simp only [runTasks, he, tasksPure]
    obtain ⟨he2, hmp2⟩ := ih
      { d with
        s := (callFnPure e.1 { typeName := tn, filterV := fl } args d.s).2,
        trace := d.trace ++ fnTraceF false args e.1,
        entryTrace := d.entryTrace ++ [e.1.topId] }
      hmp (fun x hx => ht x (List.mem_cons_of_mem _ hx)) hT
    rw [he2]
    constructor
    · simp [List.append_assoc]
    · exact hmp2

/-- The dispatch of one emission over a meta-free registry with tame
snapshot listeners: the entry trace is exactly the snapshot, the
invocation trace is the concatenation of the per-entry traces, and the
final state is the pure fold of the listener effects. -/
theorem emitGo_tame (n : Nat) (ty : EvType) (args : List JsVal) (s : InformerState)
    (hm : metaFree s = true)
    (ht : ∀ e ∈ ((queryListeners ty true s).1).entries, fnTame e.1 = true) :
    (emitGo (n + 1) ty args s).entryTrace =
      ((queryListeners ty true s).1).entries.map (fun e => e.1.topId) ∧
    (emitGo (n + 1) ty args s).trace =
      ((queryListeners ty true s).1).entries.flatMap
        (fun e => fnTraceF false args e.1) ∧
    (emitGo (n + 1) ty args s).state =
      tasksPure ((queryListeners ty true s).1).typeName
        ((queryListeners ty true s).1).filterV args
        ((queryListeners ty true s).1).entries (queryListeners ty true s).2 := by
  cases hq : ((queryListeners ty true s).1).entries with
  | nil =>
    simp only [emitGo, hq, tasksPure]
    by_cases hty : ty = EvType.strT "error" <;> simp [hty]
  | cons e0 rest =>
    simp only [emitGo, hq]
    have hm1 : metaFree (queryListeners ty true s).2 = true := by
      rw [metaFree_queryListeners]; exact hm
    have ht1 : ∀ e ∈ e0 :: rest, fnTame e.1 = true := by rw [← hq]; exact ht
    obtain ⟨he, _⟩ := runTasks_eq (emitGo n) (queryListeners ty true s).1.typeName
      (queryListeners ty true s).1.filterV args (e0 :: rest)
      { s := (queryListeners ty true s).2 } hm1 ht1 rfl
    rw [he]
    simp [finishEmit, DSt.out]

/-- C9: for every emission over a meta-free registry whose matching
listeners are tame (they may add and remove listeners, including a once
wrapper removing itself, but do not throw), every listener entry of the
query snapshot taken when emit was called is dispatched exactly once,
in registration order, whatever registry mutation the listener bodies
perform: the dispatch iterates the snapshot array, never the live
registry. -/
theorem claim_C9_snapshot_dispatch (n : Nat) (ty : EvType) (args : List JsVal) (s : InformerState)
    (hm : metaFree s = true)
    (ht : ∀ e ∈ ((queryListeners ty true s).1).entries, fnTame e.1 = true) :
    (emitGo (n + 1) ty args s).entryTrace =
      ((queryListeners ty true s).1).entries.map (fun e => e.1.topId) :=
  (emitGo_tame n ty args s hm ht).1

/-- Witness for C9: a plain listener, a once wrapper that removes
itself during dispatch, and another plain listener; all three snapshot
entries are dispatched exactly once, in order. -/
theorem claim_C9_snapshot_dispatch_witness :
    metaFree c9WState = true ∧
    (∀ e ∈ ((queryListeners (EvType.strT "t") true c9WState).1).entries,
      fnTame e.1 = true) ∧
    (emitGo 1 (EvType.strT "t") [] c9WState).entryTrace = [1, 7, 3] := by
  have h := claim_C9_snapshot_dispatch 0 (EvType.strT "t") [] c9WState rfl (by decide)
  refine ⟨rfl, by decide, ?_⟩
  rw [h]
  rfl

theorem plain_tame (f : LFun) (h : plainFn f = true) : fnTame f = true := by
  cases f with
  | user id body =>
    cases body with
    | nil => rfl
    | cons a b => simp [plainFn] at h
  | wrap a b c d e => simp [plainFn] at h

theorem callFnPure_plain (f : LFun) (ctx : Ctx) (args : List JsVal)
    (s : InformerState) (h : plainFn f = true) :
    callFnPure f ctx args s = (ctx, s) := by
  cases f with
  | user id body =>
    cases body with
    | nil => rfl
    | cons a b => simp [plainFn] at h
  | wrap a b c d e => simp [plainFn] at h

theorem tasksPure_plain (tn : String) (fl : Option JFilter) (args : List JsVal) :
    ∀ (entries : List (LFun × Option JFilter)) (s : InformerState),
      (∀ e ∈ entries, plainFn e.1 = true) → tasksPure tn fl args entries s = s := by
  intro entries
  induction entries with
  | nil => intro s _; rfl
  | cons e rest ih =>
    intro s hp
    simp only [tasksPure]
    rw [callFnPure_plain e.1 _ args s (hp e (by simp))]
    exact ih s (fun x hx => hp x (List.mem_cons_of_mem _ hx))

theorem fnTraceF_plain (p : Bool) (args : List JsVal) (f : LFun)
    (h : plainFn f = true) : fnTraceF p args f = [⟨f.topId, p, args⟩] := by
  cases f with
  | user id body => rfl
  | wrap a b c d e => simp [plainFn] at h

theorem flatMap_trace_plain (args : List JsVal) :
    ∀ (L : List LFun), (∀ l ∈ L, plainFn l = true) →
      (L.map (fun l => (l, (none : Option JFilter)))).flatMap
        (fun e => fnTraceF false args e.1) =
      L.map (fun l => (⟨l.topId, false, args⟩ : Invoc)) := by
  intro L
  induction L with
  | nil => intro _; rfl
  | cons l rest ih =>
    intro hp
    simp only [List.map_cons, List.flatMap_cons]
    rw [fnTraceF_plain false args l (hp l (by simp)),
      ih (fun x hx => hp x (List.mem_cons_of_mem _ hx))]
    rfl

/-- C7: the hasBeenSeen / emitOnce round trip on a simple type t that
is not yet seen, with plain listeners registered: the first emitOnce
invokes every listener with the data argument, a second emitOnce on the
resulting state invokes none, and a direct emit still invokes them
all. -/
theorem claim_C7_emitOnce_roundtrip (n m k : Nat) (t : String) (data : JsVal) (s : InformerState)
    (L : List LFun)
    (hm : metaFree s = true) (htn : t ≠ "")
    (hseen : s.simpleSeen.contains t = false)
    (hlk : lookupL s.simpleListeners t = some L)
    (hpl : ∀ l ∈ L, plainFn l = true) :
    (emitOnceGo (n + 1) (EvType.strT t) data s).trace =
      L.map (fun l => (⟨l.topId, false, [data]⟩ : Invoc)) ∧
    (emitOnceGo m (EvType.strT t) data
        (emitOnceGo (n + 1) (EvType.strT t) data s).state).trace = [] ∧
    (emitGo (k + 1) (EvType.strT t) [data]
        (emitOnceGo (n + 1) (EvType.strT t) data s).state).trace =
      L.map (fun l => (⟨l.topId, false, [data]⟩ : Invoc)) := by
  have hbs : hasBeenSeen (EvType.strT t) s = false := by
    simpa [hasBeenSeen] using hseen
  have ho1 : emitOnceGo (n + 1) (EvType.strT t) data s =
      emitGo (n + 1) (EvType.strT t) [data] s := by
    simp [emitOnceGo, hbs]
  have hent : ((queryListeners (EvType.strT t) true s).1).entries =
      L.map (fun l => (l, (none : Option JFilter))) := by
    rw [queryListeners_entries_str t true s htn, hlk]
    rfl
  have hplq : ∀ e ∈ ((queryListeners (EvType.strT t) true s).1).entries,
      plainFn e.1 = true := by
    rw [hent]; intro e he
    obtain ⟨l, hl, rfl⟩ := List.mem_map.1 he
    exact hpl l hl
  have htame : ∀ e ∈ ((queryListeners (EvType.strT t) true s).1).entries,
      fnTame e.1 = true := fun e he => plain_tame e.1 (hplq e he)
  obtain ⟨het, htr, hst⟩ := emitGo_tame n (EvType.strT t) [data] s hm htame
  have htrace : (emitGo (n + 1) (EvType.strT t) [data] s).trace =
      L.map (fun l => (⟨l.topId, false, [data]⟩ : Invoc)) := by
    rw [htr, hent, flatMap_trace_plain [data] L hpl]
  have hstate : (emitGo (n + 1) (EvType.strT t) [data] s).state =
      { s with simpleSeen := t :: s.simpleSeen } := by
    rw [hst, tasksPure_plain _ _ _ _ _ hplq, queryListeners_snd]
    simp [evName]
  have hm1 : metaFree { s with simpleSeen := t :: s.simpleSeen } = true := hm
  have hbs2 : hasBeenSeen (EvType.strT t)
      { s with simpleSeen := t :: s.simpleSeen } = true := by
    simp [hasBeenSeen]
  refine ⟨by rw [ho1]; exact htrace, ?_, ?_⟩
  · rw [ho1, hstate]
    simp [emitOnceGo, hbs2]
  · rw [ho1, hstate]
    have hent1 : ((queryListeners (EvType.strT t) true
        { s with simpleSeen := t :: s.simpleSeen }).1).entries =
        L.map (fun l => (l, (none : Option JFilter))) := by
      rw [queryListeners_entries_str t true _ htn]
      rw [show lookupL ({ s with simpleSeen := t :: s.simpleSeen } :
        InformerState).simpleListeners t = some L from hlk]
      rfl
    have hplq1 : ∀ e ∈ ((queryListeners (EvType.strT t) true
        { s with simpleSeen := t :: s.simpleSeen }).1).entries,
        plainFn e.1 = true := by
      rw [hent1]; intro e he
      obtain ⟨l, hl, rfl⟩ := List.mem_map.1 he
      exact hpl l hl
    have htame1 : ∀ e ∈ ((queryListeners (EvType.strT t) true
        { s with simpleSeen := t :: s.simpleSeen }).1).entries,
        fnTame e.1 = true := fun e he => plain_tame e.1 (hplq1 e he)
    obtain ⟨_, htr1, _⟩ := emitGo_tame k (EvType.strT t) [data] _ hm1 htame1
    rw [htr1, hent1, flatMap_trace_plain [data] L hpl]

theorem concat_getD_len {α : Type} (l : List α) (a : α) (d : α) :
    (l ++ [a]).getD l.length d = a := by
  induction l with
  | nil => rfl
  | cons x xs ih => simpa [List.getD] using ih

theorem concat_set_len {α : Type} (l : List α) (a b : α) :
    (l ++ [a]).set l.length b = l ++ [b] := by
  induction l with
  | nil => rfl
  | cons x xs ih => simp [List.set, ih]

theorem concat_eraseIdx_len {α : Type} (l : List α) (a : α) :
    (l ++ [a]).eraseIdx l.length = l := by
  induction l with
  | nil => rfl
  | cons x xs ih => simp [List.eraseIdx, ih]

theorem concat_get_len {α : Type} (l : List α) (a : α) :
    (l ++ [a]).get? l.length = some a := by
  induction l with
  | nil => rfl
  | cons x xs ih => simpa using ih

theorem setKey_setKey {α : Type} (m : List (String × α)) (k : String) (v w : α) :
    setKey (setKey m k v) k w = setKey m k w := by
  induction m with
  | nil => simp [setKey]
  | cons p rest ih =>
    obtain ⟨a, b⟩ := p
    by_cases hk : a = k
    · subst hk; simp [setKey]
    · simp [setKey, hk, ih]

theorem setKey_append_last {α : Type} (m : List (String × α)) (t : String) (v w : α)
    (h : lookupL m t = none) : setKey (m ++ [(t, v)]) t w = m ++ [(t, w)] := by
  induction m with
  | nil => simp [setKey]
  | cons p rest ih =>
    obtain ⟨a, b⟩ := p
    by_cases hk : a = t
    · simp [lookupL, hk] at h
    · simp [lookupL, hk] at h
      simp [setKey, hk, ih h]

theorem remSimplePure_nomatch (t : String) (tid : Nat) :
    ∀ (i : Nat) (s : InformerState),
      (∀ f ∈ (lookupL s.simpleListeners t).getD [], fnMatches f tid = false) →
      remSimplePure t tid i s = s := by
  intro i
  induction i with
  | zero => intro s _; rfl
  | succ i ih =>
    intro s h
    simp only [remSimplePure]
    cases hg : ((lookupL s.simpleListeners t).getD []).get? i with
    | none => dsimp only; exact ih s h
    | some f =>
      dsimp only
      have hf : fnMatches f tid = false := h f (List.get?_mem hg)
      rw [if_neg (by simp [hf])]
      exact ih s h

theorem topId_mem_fnIds (f : LFun) : f.topId ∈ LFun.fnIds f := by
  cases f <;> simp [LFun.topId, LFun.fnIds]

theorem fnMatches_mem (f : LFun) (tid : Nat) (h : fnMatches f tid = true) :
    tid ∈ LFun.fnIds f := by
  cases f with
  | user id body =>
    simp [fnMatches, LFun.topId] at h
    simp [LFun.fnIds, h]
  | wrap gid cref times ty inner =>
    simp [fnMatches, LFun.topId] at h
    rcases h with h | h
    · simp [LFun.fnIds, h]
    · simp [LFun.fnIds]
      right
      rw [← h]
      exact topId_mem_fnIds inner

theorem fnInvIds_sub (f : LFun) : ∀ x ∈ fnInvIds f, x ∈ LFun.fnIds f := by
  induction f with
  | user id body => intro x hx; simp [fnInvIds] at hx; simp [LFun.fnIds, hx]
  | wrap gid cref times ty inner ih =>
    intro x hx
    simp [fnInvIds] at hx
    rcases hx with rfl | hx
    · simp [LFun.fnIds]
    · simp [LFun.fnIds]
      exact Or.inr (ih x hx)

theorem mem_fnTraceF (p : Bool) (args : List JsVal) (f : LFun) :
    ∀ v ∈ fnTraceF p args f, v.fnId ∈ fnInvIds f := by
  induction f with
  | user id body => intro v hv; simp [fnTraceF] at hv; simp [fnInvIds, hv]
  | wrap gid cref times ty inner ih =>
    intro v hv
    simp [fnTraceF] at hv
    rcases hv with rfl | hv
    · simp [fnInvIds]
    · simp [fnInvIds]
      exact Or.inr (ih v hv)

theorem mem_allFns_simple (s : InformerState) (t : String) (L : List LFun) (f : LFun)
    (hlk : lookupL s.simpleListeners t = some L) (hf : f ∈ L) : f ∈ allFns s := by
  have hmem : (t, L) ∈ s.simpleListeners := lookupL_mem _ _ _ hlk
  exact List.mem_append_left _ (List.mem_flatMap.2 ⟨(t, L), hmem, hf⟩)

theorem fnIds_sub_state (s : InformerState) (f : LFun) (hf : f ∈ allFns s) :
    ∀ x ∈ LFun.fnIds f, x ∈ stateFnIds s :=
  fun x hx => List.mem_flatMap.2 ⟨f, hf, hx⟩

theorem entries_str_sub (t : String) (b : Bool) (s : InformerState)
    (e : LFun × Option JFilter)
    (he : e ∈ ((queryListeners (EvType.strT t) b s).1).entries) :
    e.1 ∈ (lookupL s.simpleListeners t).getD [] := by
  by_cases htn : t = ""
  · subst htn
    simp [queryListeners, evName] at he
  · rw [queryListeners_entries_str t b s htn] at he
    obtain ⟨l, hl, rfl⟩ := List.mem_map.1 he
    exact hl

theorem hasBeenSeen_str (t : String) (s : InformerState) :
    hasBeenSeen (EvType.strT t) s = s.simpleSeen.contains t := rfl

theorem addSimpleEntry_simpleSeen (s : InformerState) (t : String) (l : LFun) :
    (addSimpleEntry s t l).simpleSeen = s.simpleSeen := by
  unfold addSimpleEntry
  split <;> rfl

theorem addSimpleEntry_counters (s : InformerState) (t : String) (l : LFun) :
    (addSimpleEntry s t l).counters = s.counters := by
  unfold addSimpleEntry
  split <;> rfl

theorem addSimpleEntry_filterListeners (s : InformerState) (t : String) (l : LFun) :
    (addSimpleEntry s t l).filterListeners = s.filterListeners := by
  unfold addSimpleEntry
  split <;> rfl

theorem afterGo_str_eq (emitF : EmitF) (t : String) (times : Int) (l : LFun)
    (gid : Nat) (s : InformerState) (hm : metaFree s = true) :
    afterGo emitF (EvType.strT t) times l gid s =
      (let g := LFun.wrap gid s.counters.length times (EvType.strT t) l
       let sA := addEntryPure (EvType.strT t) g
         { s with counters := s.counters ++ [0] }
       if hasBeenSeen (EvType.strT t) sA then
         let c := callFn emitF g
           { typeName := t, filterV := none, past := true } [] sA
         { s := c.s, trace := c.trace, thrown := c.thrown, fuelOut := c.fuelOut }
       else noop sA) := by
  have hm0 : metaFree { s with counters := s.counters ++ [0] } = true := hm
  simp only [afterGo, addListenerGo_eq emitF (EvType.strT t) _ _ hm0, thenDo_noop]
  dsimp only [evName]

theorem c10_callFnPure_some (t : String) (lid gid : Nat) (s : InformerState)
    (L : List LFun) (ctx : Ctx)
    (hlk : lookupL s.simpleListeners t = some L)
    (hnm : ∀ f ∈ L, fnMatches f gid = false) :
    (callFnPure
      (LFun.wrap gid s.counters.length 1 (EvType.strT t) (LFun.user lid [])) ctx []
      { s with counters := s.counters ++ [0],
               simpleListeners := setKey s.simpleListeners t
                 (L ++ [LFun.wrap gid s.counters.length 1 (EvType.strT t)
                   (LFun.user lid [])]) }).2 =
    { s with counters := s.counters ++ [1] } := by
  simp only [callFnPure]
  rw [concat_getD_len]
  rw [if_pos (by norm_num)]
  rw [concat_set_len]
  simp only [removePure]
  rw [lookupL_setKey_eq]
  dsimp only
  rw [if_neg (by simp)]
  rw [show (L ++ [LFun.wrap gid s.counters.length 1 (EvType.strT t)
    (LFun.user lid [])]).length = L.length + 1 by simp]
  simp only [remSimplePure]
  rw [lookupL_setKey_eq]
  dsimp only [Option.getD]
  rw [concat_get_len]
  dsimp only
  rw [if_pos (by simp [fnMatches, LFun.topId])]
  rw [concat_eraseIdx_len, setKey_setKey, setKey_self s.simpleListeners t L hlk]
  rw [remSimplePure_nomatch t gid L.length _ (by
    intro f hf
    rw [show lookupL s.simpleListeners t = some L from hlk] at hf
    exact hnm f hf)]
  rfl


theorem c10_callFnPure_none (t : String) (lid gid : Nat) (s : InformerState)
    (ctx : Ctx) (hlk : lookupL s.simpleListeners t = none) :
    (callFnPure
      (LFun.wrap gid s.counters.length 1 (EvType.strT t) (LFun.user lid [])) ctx []
      { s with counters := s.counters ++ [0],
               simpleListeners := s.simpleListeners ++
                 [(t, [LFun.wrap gid s.counters.length 1 (EvType.strT t)
                   (LFun.user lid [])])],
               listenTypes := s.listenTypes ++ [t] }).2 =
    { s with counters := s.counters ++ [1],
             simpleListeners := s.simpleListeners ++ [(t, [])],
             listenTypes := s.listenTypes ++ [t] } := by
  simp only [callFnPure]
  rw [concat_getD_len]
  rw [if_pos (by norm_num)]
  rw [concat_set_len]
  simp only [removePure]
  rw [lookupL_append_none _ _ _ hlk]
  rw [show lookupL [(t, [LFun.wrap gid s.counters.length 1 (EvType.strT t)
      (LFun.user lid [])])] t =
    some [LFun.wrap gid s.counters.length 1 (EvType.strT t) (LFun.user lid [])] from by
      simp [lookupL]]
  try dsimp only
  rw [if_neg (by simp)]
  simp only [List.length_cons, List.length_nil, remSimplePure]
  rw [lookupL_append_none _ _ _ hlk]
  rw [show lookupL [(t, [LFun.wrap gid s.counters.length 1 (EvType.strT t)
      (LFun.user lid [])])] t =
    some [LFun.wrap gid s.counters.length 1 (EvType.strT t) (LFun.user lid [])] from by
      simp [lookupL]]
  simp only [Option.getD, List.get?]
  try dsimp only
  rw [if_pos (by simp [fnMatches, LFun.topId])]
  simp only [List.eraseIdx]
  rw [setKey_append_last s.simpleListeners t _ _ hlk]
  rfl

theorem c10_later_emit (m : Nat) (t : String) (lid : Nat) (args : List JsVal)
    (s S1 : InformerState)
    (hmS : metaFree S1 = true)
    (hL : (lookupL S1.simpleListeners t).getD [] =
      (lookupL s.simpleListeners t).getD [])
    (htame : ∀ f ∈ (lookupL s.simpleListeners t).getD [], fnTame f = true)
    (hsub : ∀ f ∈ (lookupL s.simpleListeners t).getD [],
      ∀ x ∈ LFun.fnIds f, x ∈ stateFnIds s)
    (hlid : lid ∉ stateFnIds s) :
    ∀ v ∈ (emitGo (m + 1) (EvType.strT t) args S1).trace, v.fnId ≠ lid := by
  have htameq : ∀ e ∈ ((queryListeners (EvType.strT t) true S1).1).entries,
      fnTame e.1 = true := by
    intro e he
    have hs := entries_str_sub t true S1 e he
    rw [hL] at hs
    exact htame e.1 hs
  obtain ⟨_, htr, _⟩ := emitGo_tame m (EvType.strT t) args S1 hmS htameq
  intro v hv hveq
  rw [htr] at hv
  obtain ⟨e, he, hvin⟩ := List.mem_flatMap.1 hv
  have hmem : e.1 ∈ (lookupL s.simpleListeners t).getD [] := by
    have hs := entries_str_sub t true S1 e he
    rwa [hL] at hs
  have hx : v.fnId ∈ stateFnIds s :=
    hsub e.1 hmem v.fnId (fnInvIds_sub e.1 v.fnId (mem_fnTraceF false args e.1 v hvin))
  rw [hveq] at hx
  exact hlid hx

/-- C10: afterOnce on an already-seen type invokes the listener exactly
once, immediately at subscription time, under a context with
`past := true` and no arguments (the wrapper fires and the listener
through it); the catch-up firing counts toward the times limit, so the
wrapper unsubscribes itself and the per-type listener lists are left as
they were; consequently no later emit of that type invokes the listener
again. -/
theorem claim_C10_afterOnce_catchup (n m : Nat) (t : String) (lid gid : Nat) (args : List JsVal)
    (s : InformerState)
    (hm : metaFree s = true)
    (hseen : hasBeenSeen (EvType.strT t) s = true)
    (ht1 : t ≠ "newListener") (ht2 : t ≠ "removeListener")
    (hlid : lid ∉ stateFnIds s) (hgid : gid ∉ stateFnIds s)
    (htame : ∀ f ∈ (lookupL s.simpleListeners t).getD [], fnTame f = true) :
    (afterOnceGo (emitGo n) (EvType.strT t) (LFun.user lid []) gid s).trace =
      [⟨gid, true, []⟩, ⟨lid, true, []⟩] ∧
    (afterOnceGo (emitGo n) (EvType.strT t) (LFun.user lid []) gid s).thrown = none ∧
    (∀ name, (lookupL (afterOnceGo (emitGo n) (EvType.strT t)
        (LFun.user lid []) gid s).s.simpleListeners name).getD [] =
      (lookupL s.simpleListeners name).getD []) ∧
    (afterOnceGo (emitGo n) (EvType.strT t)
        (LFun.user lid []) gid s).s.filterListeners = s.filterListeners ∧
    (∀ v ∈ (emitGo (m + 1) (EvType.strT t) args
        (afterOnceGo (emitGo n) (EvType.strT t) (LFun.user lid []) gid s).s).trace,
      v.fnId ≠ lid) := by
  have hsub : ∀ f ∈ (lookupL s.simpleListeners t).getD [],
      ∀ x ∈ LFun.fnIds f, x ∈ stateFnIds s := by
    cases hlk : lookupL s.simpleListeners t with
    | none => intro f hf; simp at hf
    | some L =>
      intro f hf x hx
      exact fnIds_sub_state s f (mem_allFns_simple s t L f hlk (by simpa using hf)) x hx
  cases hlk : lookupL s.simpleListeners t with
  | some L =>
    have hnm : ∀ f ∈ L, fnMatches f gid = false := by
      intro f hf
      cases hq : fnMatches f gid with
      | false => rfl
      | true =>
        exact absurd
          (fnIds_sub_state s f (mem_allFns_simple s t L f hlk hf) gid
            (fnMatches_mem f gid hq)) hgid
    have hsA : addEntryPure (EvType.strT t)
        (LFun.wrap gid s.counters.length 1 (EvType.strT t) (LFun.user lid []))
        { s with counters := s.counters ++ [0] } =
        { s with counters := s.counters ++ [0],
                 simpleListeners := setKey s.simpleListeners t
                   (L ++ [LFun.wrap gid s.counters.length 1 (EvType.strT t)
                     (LFun.user lid [])]) } := by
      simp only [addEntryPure, addSimpleEntry]
      rw [show lookupL ({ s with counters := s.counters ++ [0] } :
        InformerState).simpleListeners t = some L from hlk]
    have hmA : metaFree
        { s with counters := s.counters ++ [0],
                 simpleListeners := setKey s.simpleListeners t
                   (L ++ [LFun.wrap gid s.counters.length 1 (EvType.strT t)
                     (LFun.user lid [])]) } = true :=
      metaFree_set_simple s t _ hm ht1 ht2
    obtain ⟨hcall, _⟩ := callFn_eq (emitGo n)
      (LFun.wrap gid s.counters.length 1 (EvType.strT t) (LFun.user lid []))
      { typeName := t, filterV := none, past := true } []
      { s with counters := s.counters ++ [0],
               simpleListeners := setKey s.simpleListeners t
                 (L ++ [LFun.wrap gid s.counters.length 1 (EvType.strT t)
                   (LFun.user lid [])]) } hmA rfl
    have hres : afterOnceGo (emitGo n) (EvType.strT t) (LFun.user lid []) gid s =
        { s := { s with counters := s.counters ++ [1] },
          trace := [⟨gid, true, []⟩, ⟨lid, true, []⟩],
          thrown := none, fuelOut := false } := by
      simp only [afterOnceGo]
      rw [afterGo_str_eq (emitGo n) t 1 (LFun.user lid []) gid s hm]
      dsimp only
      rw [hsA]
      have hcond : hasBeenSeen (EvType.strT t)
          ({ s with
            counters := s.counters ++ [0],
            simpleListeners := setKey s.simpleListeners t
              (L ++ [LFun.wrap gid s.counters.length 1 (EvType.strT t)
                (LFun.user lid [])]) } : InformerState) = true := hseen
      rw [if_pos hcond]
      rw [hcall]
      rw [c10_callFnPure_some t lid gid s L
        { typeName := t, filterV := none, past := true } hlk hnm]
      rfl
    rw [hres]
    refine ⟨rfl, rfl, fun name => rfl, rfl, ?_⟩
    exact c10_later_emit m t lid args s { s with counters := s.counters ++ [1] }
      hm rfl htame hsub hlid
  | none =>
    have hsA : addEntryPure (EvType.strT t)
        (LFun.wrap gid s.counters.length 1 (EvType.strT t) (LFun.user lid []))
        { s with counters := s.counters ++ [0] } =
        { s with counters := s.counters ++ [0],
                 simpleListeners := s.simpleListeners ++
                   [(t, [LFun.wrap gid s.counters.length 1 (EvType.strT t)
                     (LFun.user lid [])])],
                 listenTypes := s.listenTypes ++ [t] } := by
      simp only [addEntryPure, addSimpleEntry]
      rw [show lookupL ({ s with counters := s.counters ++ [0] } :
        InformerState).simpleListeners t = none from hlk]
    have hmA : metaFree
        { s with counters := s.counters ++ [0],
                 simpleListeners := s.simpleListeners ++
                   [(t, [LFun.wrap gid s.counters.length 1 (EvType.strT t)
                     (LFun.user lid [])])],
                 listenTypes := s.listenTypes ++ [t] } = true := by
      rcases (metaFree_iff s).1 hm with ⟨m1, m2, m3⟩
      refine (metaFree_iff _).2 ⟨?_, m2, ?_⟩
      · rw [lookupL_append_none _ _ _ m1]; simp [lookupL, ht1]
      · rw [lookupL_append_none _ _ _ m3]; simp [lookupL, ht2]
    obtain ⟨hcall, _⟩ := callFn_eq (emitGo n)
      (LFun.wrap gid s.counters.length 1 (EvType.strT t) (LFun.user lid []))
      { typeName := t, filterV := none, past := true } []
      { s with counters := s.counters ++ [0],
               simpleListeners := s.simpleListeners ++
                 [(t, [LFun.wrap gid s.counters.length 1 (EvType.strT t)
                   (LFun.user lid [])])],
               listenTypes := s.listenTypes ++ [t] } hmA rfl
    have hres : afterOnceGo (emitGo n) (EvType.strT t) (LFun.user lid []) gid s =
        { s := { s with
            counters := s.counters ++ [1],
            simpleListeners := s.simpleListeners ++ [(t, [])],
            listenTypes := s.listenTypes ++ [t] },
          trace := [⟨gid, true, []⟩, ⟨lid, true, []⟩],
          thrown := none, fuelOut := false } := by
      simp only [afterOnceGo]
      rw [afterGo_str_eq (emitGo n) t 1 (LFun.user lid []) gid s hm]
      dsimp only
      rw [hsA]
      have hcond : hasBeenSeen (EvType.strT t)
          ({ s with
            counters := s.counters ++ [0],
            simpleListeners := s.simpleListeners ++
              [(t, [LFun.wrap gid s.counters.length 1 (EvType.strT t)
                (LFun.user lid [])])],
            listenTypes := s.listenTypes ++ [t] } : InformerState) = true := hseen
      rw [if_pos hcond]
      rw [hcall]
      rw [c10_callFnPure_none t lid gid s
        { typeName := t, filterV := none, past := true } hlk]
      rfl
    have hkey : ∀ name,
        (lookupL (s.simpleListeners ++ [(t, ([] : List LFun))]) name).getD [] =
        (lookupL s.simpleListeners name).getD [] := by
      intro name
      by_cases hn : name = t
      · subst hn
        rw [lookupL_append_none _ _ _ hlk, hlk]
        simp [lookupL]
      · cases hv : lookupL s.simpleListeners name with
        | none =>
          rw [lookupL_append_none _ _ _ hv]
          simp only [lookupL, hv]
          split <;> rfl
        | some v => rw [lookupL_append_some _ _ _ _ hv]
    rw [hres]
    refine ⟨rfl, rfl, fun name => hkey name, rfl, ?_⟩
    have hmS : metaFree { s with
        counters := s.counters ++ [1],
        simpleListeners := s.simpleListeners ++ [(t, [])],
        listenTypes := s.listenTypes ++ [t] } = true := by
      rcases (metaFree_iff s).1 hm with ⟨m1, m2, m3⟩
      refine (metaFree_iff _).2 ⟨?_, m2, ?_⟩
      · rw [lookupL_append_none _ _ _ m1]; simp [lookupL, ht1]
      · rw [lookupL_append_none _ _ _ m3]; simp [lookupL, ht2]
    exact c10_later_emit m t lid args s _ hmS (hkey t) htame hsub hlid

/-- Witness for C10: a seen type t with one registered listener; the
fresh wrapper 60 and listener 50 fire once at subscription time and a
later emit of t does not invoke listener 50. -/
theorem claim_C10_afterOnce_catchup_witness :
    metaFree c10WState = true ∧
    hasBeenSeen (EvType.strT "t") c10WState = true ∧
    (afterOnceGo (emitGo 9) (EvType.strT "t") (LFun.user 50 []) 60 c10WState).trace =
      [⟨60, true, []⟩, ⟨50, true, []⟩] ∧
    (∀ v ∈ (emitGo 9 (EvType.strT "t") [JsVal.num 9]
        (afterOnceGo (emitGo 9) (EvType.strT "t") (LFun.user 50 []) 60 c10WState).s).trace,
      v.fnId ≠ 50) := by
  have h := claim_C10_afterOnce_catchup 9 8 "t" 50 60 [JsVal.num 9] c10WState rfl rfl
    (by decide) (by decide) (by decide) (by decide) (by decide)
  exact ⟨rfl, rfl, h.1, h.2.2.2.2⟩

/-- Witness for C7 at the concrete two-listener registry. -/
theorem claim_C7_emitOnce_roundtrip_witness :
    metaFree c7WState = true ∧
    c7WState.simpleSeen.contains "t" = false ∧
    (emitOnceGo 9 (EvType.strT "t") (JsVal.objV 4) c7WState).trace =
      [⟨1, false, [JsVal.objV 4]⟩, ⟨2, false, [JsVal.objV 4]⟩] ∧
    (emitOnceGo 9 (EvType.strT "t") (JsVal.objV 4)
        (emitOnceGo 9 (EvType.strT "t") (JsVal.objV 4) c7WState).state).trace = [] ∧
    (emitGo 9 (EvType.strT "t") [JsVal.objV 4]
        (emitOnceGo 9 (EvType.strT "t") (JsVal.objV 4) c7WState).state).trace =
      [⟨1, false, [JsVal.objV 4]⟩, ⟨2, false, [JsVal.objV 4]⟩] := by
  have h := claim_C7_emitOnce_roundtrip 8 9 8 "t" (JsVal.objV 4) c7WState
    [LFun.user 1 [], LFun.user 2 []] rfl (by decide) rfl rfl (by decide)
  refine ⟨rfl, rfl, ?_, h.2.1, ?_⟩
  · rw [h.1]; rfl
  · rw [h.2.2]; rfl
